import Mathlib

/-! Register codec of the humidity device plugin.

A shallow embedding of `plugin-humidity.go`: the two converter methods
`ConvertIssueMessage2Device` (value string to register bytes) and
`ConvertDeviceMessages2MQFormat` (raw reply bytes to a hexadecimal string),
followed by theorems about them.

Conventions of the embedding.

* A Go `string` or `[]byte` whose bytes are inspected is a `List Nat`, one
  number per byte; a byte string proper has every entry below 256.
* Identifiers and registry type names are only ever compared for equality and
  are Lean strings.
* A Go slice or map that may be `nil` is an `Option`; `none` is `nil`.
* A run-time panic is the `error` side of `Except GoPanic`; a returned Go
  `error` value is a field of the returned tuple.
* Unsigned machine arithmetic is arithmetic on `Nat` reduced modulo `2 ^ w`.
* The integer type of the field `RegistryNum` is declared outside the sources;
  it is a parameter `T : GoIntType` of the functions that compute with the
  field, and `RegistryNum*2` is evaluated in that type.
-/

namespace Humidity

/-! ## Go values -/

/-- A Go string seen as its sequence of bytes. -/
abbrev GoString := List Nat

/-- Every entry of the list is a byte. -/
def IsByteString (s : GoString) : Prop := ∀ b ∈ s, b < 256

instance (s : GoString) : Decidable (IsByteString s) := by
  unfold IsByteString; infer_instance

deriving instance DecidableEq for Except

/-- The run-time panics the translated statements can raise. -/
inductive GoPanic where
  | indexOutOfRange
  | sliceBoundsOutOfRange
  | illegalBase
  | makesliceLenOutOfRange
  deriving DecidableEq

/-- The `Err` field of a `strconv.NumError`. -/
inductive NumErrKind where
  | ErrSyntax
  | ErrRange
  | invalidBase (base : Nat)
  | invalidBitSize (bitSize : Nat)
  deriving DecidableEq

/-- The Go `error` values of the program: a `*strconv.NumError` with its
function name, offending text and cause, or the result of `fmt.Errorf`. -/
inductive GoError where
  | numError (fn : String) (num : GoString) (err : NumErrKind)
  | errorf (msg : String)
  deriving DecidableEq

/-- A Go map with string keys, as the list of its entries; indexing finds the
first entry with the key. For a map that is ranged over, the list is the
iteration order. -/
abbrev GoMap (α : Type) := List (String × α)

/-- The Go expression `m[k]`: the value stored under `k`, or the zero value of
the element type when the key is absent. -/
def mapIndex {α : Type} (m : GoMap α) (zero : α) (k : String) : α :=
  (m.lookup k).getD zero

/-! ## Fixed-width integer types -/

/-- The sized integer types of Go. The types `int`, `uint` and `uintptr` behave
as the 32-bit or the 64-bit type of their signedness. -/
inductive GoIntType where
  | int8 | int16 | int32 | int64
  | uint8 | uint16 | uint32 | uint64
  deriving DecidableEq

/-- The width of an integer type in bits. -/
def GoIntType.bits : GoIntType → Nat
  | .int8 => 8 | .int16 => 16 | .int32 => 32 | .int64 => 64
  | .uint8 => 8 | .uint16 => 16 | .uint32 => 32 | .uint64 => 64

/-- Whether an integer type is signed. -/
def GoIntType.signed : GoIntType → Bool
  | .int8 => true | .int16 => true | .int32 => true | .int64 => true
  | .uint8 => false | .uint16 => false | .uint32 => false | .uint64 => false

/-- The largest value of an integer type. -/
def GoIntType.maxVal (T : GoIntType) : Nat :=
  if T.signed = true then 2 ^ (T.bits - 1) - 1 else 2 ^ T.bits - 1

/-- The value an arithmetic operation of type `T` yields when its exact result
is the natural number `x`: the low `bits` bits of `x`, read in two's complement
for a signed type. -/
def GoIntType.wrap (T : GoIntType) (x : Nat) : Int :=
  if T.signed = true ∧ 2 ^ (T.bits - 1) ≤ x % 2 ^ T.bits then
    ((x % 2 ^ T.bits : Nat) : Int) - ((2 ^ T.bits : Nat) : Int)
  else ((x % 2 ^ T.bits : Nat) : Int)

/-! ## Configuration model -/

/-- Modelled from the spec: `ds.Param` is declared in the imported package
`beethings/pkg/device-access/rest/models`, which is not part of the sources.
A parameter descriptor carries an identifier, a registry type name and a
registry count. The count is non-negative (the spec requires it to be at least
1) and is kept as a natural number; the integer type of the field is the
parameter `T : GoIntType` of the converter. -/
structure Param where
  Id : String
  RegistryType : String
  RegistryNum : Nat
  deriving DecidableEq

/-- Modelled from the spec: `ds.Feature` of the imported models package, a
feature with an identifier, a type tag and its ordered input and output
parameter descriptors. -/
structure Feature where
  Id : String
  Type_ : String
  InputParams : List Param
  OutputParams : List Param
  deriving DecidableEq

/-- Modelled from the spec: `ds.Model` of the imported models package, a model
identifier with the features of the model. -/
structure Model where
  ModelId : String
  Features : List Feature
  deriving DecidableEq

/-- Modelled from the spec: `ds.Device` of the imported models package; only
the device identifier is used. -/
structure Device where
  DeviceId : String
  deriving DecidableEq

/-- The zero value of `ds.Param`, returned when a map has no entry. -/
def zeroParam : Param := ⟨"", "", 0⟩

/-- The `Converter` struct; the logger field has no influence on any result
and is left out. -/
structure Converter where
  ModelIdMap : GoMap Model
  DeviceIdMap : GoMap Device
  FeatureIdMap : GoMap Feature
  InputParamIdMap : GoMap Param
  OutputParamIdMap : GoMap Param

/-! ## Library functions used by the converter -/

/-- The helper `lower` of package strconv: `c | ('x' - 'X')`. -/
def lower (c : Nat) : Nat := c ||| 32

/-- The digit value the scanning loop of `strconv.ParseUint` assigns to a
character, `none` for the default branch of its switch (no underscore is
accepted since the base is given explicitly). -/
def digitVal (c : Nat) : Option Nat :=
  if 48 ≤ c ∧ c ≤ 57 then some (c - 48)
  else if 97 ≤ lower c ∧ lower c ≤ 122 then some (lower c - 97 + 10)
  else none

/-- The scanning loop of `strconv.ParseUint` over the remaining characters,
with accumulator `n` in 64-bit unsigned arithmetic. The value Go returns next
to a non-nil error is dropped, the caller never reads it. -/
def parseLoop (s0 : GoString) (base maxVal cutoff : Nat) :
    List Nat → Nat → Except GoError Nat
  | [], n => .ok n
  | c :: cs, n =>
    match digitVal c with
    | none => .error (.numError "ParseUint" s0 .ErrSyntax)
    | some d =>
      if d ≥ base % 256 then .error (.numError "ParseUint" s0 .ErrSyntax)
      else if n ≥ cutoff then .error (.numError "ParseUint" s0 .ErrRange)
      else
        let n2 := (n * base) % 2 ^ 64
        let n1 := (n2 + d) % 2 ^ 64
        if n1 < n2 ∨ n1 > maxVal then .error (.numError "ParseUint" s0 .ErrRange)
        else parseLoop s0 base maxVal cutoff cs n1

/-- Modelled from the spec: `strconv.ParseUint` belongs to the Go standard
library and is not part of the sources; this follows its implementation for an
explicit base between 2 and 36 and a bit size between 1 and 64. The branch for
base 0 (prefix detection) is not translated and ends in the invalid-base
error; the program only calls base 10. -/
def ParseUint (s : GoString) (base bitSize : Nat) : Except GoError Nat :=
  if s = [] then .error (.numError "ParseUint" s .ErrSyntax)
  else if ¬ (2 ≤ base ∧ base ≤ 36) then
    .error (.numError "ParseUint" s (.invalidBase base))
  else if bitSize = 0 ∨ bitSize > 64 then
    .error (.numError "ParseUint" s (.invalidBitSize bitSize))
  else
    parseLoop s base (2 ^ bitSize - 1) ((2 ^ 64 - 1) / base + 1) s 0

/-- Modelled from the spec: `binary.BigEndian.Uint16` of the Go standard
library: a bounds check on index 1, then `uint16(b[1]) | uint16(b[0])<<8`. -/
def Uint16 (b : List Nat) : Except GoPanic Nat :=
  match b with
  | b0 :: b1 :: _ => .ok (b1 ||| ((b0 <<< 8) % 65536))
  | _ => .error .indexOutOfRange

/-- The constant `digits` of package strconv. -/
def digits : GoString :=
  [48, 49, 50, 51, 52, 53, 54, 55, 56, 57,
   97, 98, 99, 100, 101, 102, 103, 104, 105, 106, 107, 108, 109,
   110, 111, 112, 113, 114, 115, 116, 117, 118, 119, 120, 121, 122]

/-- The digit loop of `formatBits` for a base that is a power of two:
`for u >= b { i--; a[i] = digits[u&m]; u >>= shift }; i--; a[i] = digits[u]`.
The first argument counts the free slots of the 65-byte buffer; writing
without a free slot is an index panic. -/
def formatLoopPow2 (b m shift : Nat) : Nat → Nat → GoString → Except GoPanic GoString
  | 0, _, _ => .error .indexOutOfRange
  | slots + 1, u, a =>
    if u ≥ b then formatLoopPow2 b m shift slots (u >>> shift) (digits.getD (u &&& m) 0 :: a)
    else .ok (digits.getD u 0 :: a)

/-- The digit loop of `formatBits` for a general base:
`for u >= b { i--; q := u / b; a[i] = digits[u-q*b]; u = q }; i--; a[i] = digits[u]`. -/
def formatLoopGen (b : Nat) : Nat → Nat → GoString → Except GoPanic GoString
  | 0, _, _ => .error .indexOutOfRange
  | slots + 1, u, a =>
    if u ≥ b then formatLoopGen b slots (u / b) (digits.getD (u - u / b * b) 0 :: a)
    else .ok (digits.getD u 0 :: a)

/-- Counts the low zero bits of a non-zero `x`, looking at no more than the
given number of bits. -/
def trailingZerosLoop : Nat → Nat → Nat
  | 0, _ => 0
  | bits + 1, x => if x % 2 = 1 then 0 else trailingZerosLoop bits (x / 2) + 1

/-- The function `bits.TrailingZeros` of the Go standard library on a 64-bit
word, used by `formatBits` to find the shift of a power-of-two base: the
number of trailing zero bits, 64 for zero. -/
def TrailingZeros (x : Nat) : Nat :=
  if x % 2 ^ 64 = 0 then 64 else trailingZerosLoop 64 (x % 2 ^ 64)

/-- Modelled from the spec: `strconv.FormatUint` belongs to the Go standard
library and is not part of the sources; this follows `formatBits` on a 64-bit
unsigned argument: a panic for a base outside 2..36, the shift-and-mask loop
for a power of two, the division loop otherwise (the two-digits-at-a-time
shortcut of base 10 produces the same text as the division loop). -/
def FormatUint (i base : Nat) : Except GoPanic GoString :=
  if base < 2 ∨ base > 36 then .error .illegalBase
  else if base &&& (base - 1) = 0 then
    formatLoopPow2 base (base - 1) (TrailingZeros base) 65 (i % 2 ^ 64) []
  else formatLoopGen base 65 (i % 2 ^ 64) []

/-! ## The converter -/

/-- The Go slice expression `s[lo:hi]` on a string, with its bounds check. -/
def sliceStr (s : GoString) (lo hi : Nat) : Except GoPanic GoString :=
  if lo ≤ hi ∧ hi ≤ s.length then .ok ((s.drop lo).take (hi - lo))
  else .error .sliceBoundsOutOfRange

/-- The Go assignment `bytes[i] = v`, with its bounds check. -/
def storeByte (bytes : List Nat) (i v : Nat) : Except GoPanic (List Nat) :=
  if i < bytes.length then .ok (bytes.set i v) else .error .indexOutOfRange

/-- The inner loop of both cases of `ConvertIssueMessage2Device`,
`for i := ...; i < bound; i++`, with `k = bound - i` iterations left:

    if 2*(i+1)-1 < len(value) {
      b := value[2*i : 2*(i+1)]
      v, err := strconv.ParseUint(b, 10, 16)
      if err != nil { return nil, nil, "", "", err }
      bytes[i] = uint8(v)
    }

The outer `Except` is a panic, the inner one the early return of `err`. -/
def packLoop (value : GoString) :
    Nat → Nat → List Nat → Except GoPanic (Except GoError (List Nat))
  | 0, _, bytes => .ok (.ok bytes)
  | k + 1, i, bytes =>
    if 2 * (i + 1) - 1 < value.length then
      match sliceStr value (2 * i) (2 * (i + 1)) with
      | .error p => .error p
      | .ok b =>
        match ParseUint b 10 16 with
        | .error err => .ok (.error err)
        | .ok v =>
          match storeByte bytes i (v % 256) with
          | .error p => .error p
          | .ok bytes2 => packLoop value k (i + 1) bytes2
    else packLoop value k (i + 1) bytes

/-- The five results of `ConvertIssueMessage2Device`. -/
structure IssueResult where
  inputMessages : Option (List GoString)
  outputMessages : Option (List GoString)
  issueTopic : String
  issueResponseTopic : String
  err : Option GoError
  deriving DecidableEq

/-- The final statement of both converter methods builds this error:
`fmt.Errorf("No any messages.")`. -/
def noAnyMessages : GoError := .errorf "No any messages."

/-- Turns the outcome of the inner loop into the return statement that follows
it: `return nil, nil, "", "", err` from inside the loop, or
`return []string{string(bytes)}, nil, "", "", nil` after it. -/
def issueReturn : Except GoPanic (Except GoError (List Nat)) → Except GoPanic IssueResult
  | .error p => .error p
  | .ok (.error err) => .ok ⟨none, none, "", "", some err⟩
  | .ok (.ok bytes) => .ok ⟨some [bytes], none, "", "", none⟩

/-- The Go expression `make([]byte, len)` for a length given as an integer
value: a panic for a negative length, a zeroed buffer otherwise. Lengths beyond
what the runtime can allocate, among them every length that does not fit
`int`, are not modelled: every non-negative length is allocated. -/
def makeBytes (len : Int) : Except GoPanic (List Nat) :=
  if len < 0 then .error .makesliceLenOutOfRange else .ok (List.replicate len.toNat 0)

/-- The loop `for _, value := range values` of `ConvertIssueMessage2Device`
over the entries in iteration order, followed by the final
`return nil, nil, "", "", fmt.Errorf("No any messages.")`. The product
`RegistryNum*2` is evaluated in the integer type `T` of the field. The loop
bound `int(...)` is the length that `make` has accepted, which the conversion
to `int` leaves unchanged. -/
def rangeValues (T : GoIntType) (c : Converter) (featureId : String) :
    List (String × GoString) → Except GoPanic IssueResult
  | [] => .ok ⟨none, none, "", "", some noAnyMessages⟩
  | (_, value) :: rest =>
    if (mapIndex c.InputParamIdMap zeroParam featureId).RegistryType = "holding registry" then
      match makeBytes (T.wrap ((mapIndex c.InputParamIdMap zeroParam featureId).RegistryNum * 2)) with
      | .error p => .error p
      | .ok bytes =>
        issueReturn
          (packLoop value
            (T.wrap ((mapIndex c.InputParamIdMap zeroParam featureId).RegistryNum * 2)).toNat
            0 bytes)
    else if (mapIndex c.InputParamIdMap zeroParam featureId).RegistryType = "coil" then
      match makeBytes ((mapIndex c.InputParamIdMap zeroParam featureId).RegistryNum : Int) with
      | .error p => .error p
      | .ok bytes =>
        issueReturn
          (packLoop value (mapIndex c.InputParamIdMap zeroParam featureId).RegistryNum 0 bytes)
    else rangeValues T c featureId rest

/-- The method `ConvertIssueMessage2Device`; `values` is `none` for a nil map,
otherwise the entries of the map in the order the `range` loop visits them;
`T` is the integer type of the field `RegistryNum`. -/
def ConvertIssueMessage2Device (T : GoIntType) (c : Converter)
    (_deviceId _modelId featureId : String)
    (values : Option (GoMap GoString)) : Except GoPanic IssueResult :=
  match values with
  | some entries => rangeValues T c featureId entries
  | none => .ok ⟨none, none, "", "", some noAnyMessages⟩

/-- The three results of `ConvertDeviceMessages2MQFormat`. -/
structure MQResult where
  topic : String
  payload : Option (List Nat)
  err : Option GoError
  deriving DecidableEq

/-- The method `ConvertDeviceMessages2MQFormat`; `messages` is `none` for a
nil slice. The condition `messages != nil && len(messages[0]) > 0` indexes the
slice as soon as it is not nil, so an empty non-nil slice panics. -/
def ConvertDeviceMessages2MQFormat (_c : Converter) (messages : Option (List GoString))
    (_featureType : String) : Except GoPanic MQResult :=
  match messages with
  | none => .ok ⟨"", none, some noAnyMessages⟩
  | some [] => .error .indexOutOfRange
  | some (m0 :: _) =>
    if m0.length > 0 then
      match Uint16 (if m0.length = 1 then m0 ++ [0] else m0) with
      | .error p => .error p
      | .ok d =>
        match FormatUint d 16 with
        | .error p => .error p
        | .ok data => .ok ⟨"", some data, none⟩
    else .ok ⟨"", none, some noAnyMessages⟩

/-! ## Catalog construction in `main` -/

/-- Modelled from the spec: `ds.Protocol` of the imported models package, the
parsed configuration document: a list of devices and a list of models. -/
structure Protocol where
  Devices : List Device
  Models : List Model
  deriving DecidableEq

/-- The Go assignment `m[k] = v`: the value of an existing key is replaced, a
new key gets a new entry. -/
def mapSet {α : Type} : GoMap α → String → α → GoMap α
  | [], k, v => [(k, v)]
  | (k2, v2) :: m, k, v => if k2 = k then (k, v) :: m else (k2, v2) :: mapSet m k v

/-- The loop `for _, d := range config.Devices { deviceIdMap[d.DeviceId] = d }`. -/
def rangeDevices : List Device → GoMap Device → GoMap Device
  | [], mp => mp
  | d :: ds, mp => rangeDevices ds (mapSet mp d.DeviceId d)

/-- The loops `for _, in := range f.InputParams { inputParamIdMap[in.Id] = in }`
and `for _, out := range f.OutputParams { outputParamIdMap[out.Id] = out }`. -/
def rangeParams : List Param → GoMap Param → GoMap Param
  | [], mp => mp
  | p :: ps, mp => rangeParams ps (mapSet mp p.Id p)

/-- The loop `for _, f := range m.Features`: every feature is stored in
`featureIdMap`, and the parameters of a feature of type `"command"` are stored
in the two parameter maps. The five maps travel as a `Converter`. -/
def rangeFeatures : List Feature → Converter → Converter
  | [], st => st
  | f :: fs, st =>
    if f.Type_ = "command" then
      rangeFeatures fs
        ⟨st.ModelIdMap, st.DeviceIdMap, mapSet st.FeatureIdMap f.Id f,
          rangeParams f.InputParams st.InputParamIdMap,
          rangeParams f.OutputParams st.OutputParamIdMap⟩
    else
      rangeFeatures fs
        ⟨st.ModelIdMap, st.DeviceIdMap, mapSet st.FeatureIdMap f.Id f,
          st.InputParamIdMap, st.OutputParamIdMap⟩

/-- The loop `for _, m := range config.Models`: the features of the model are
processed, then `modelIdMap[m.ModelId] = m`. -/
def rangeModels : List Model → Converter → Converter
  | [], st => st
  | m :: ms, st =>
    rangeModels ms
      ⟨mapSet (rangeFeatures m.Features st).ModelIdMap m.ModelId m,
        (rangeFeatures m.Features st).DeviceIdMap,
        (rangeFeatures m.Features st).FeatureIdMap,
        (rangeFeatures m.Features st).InputParamIdMap,
        (rangeFeatures m.Features st).OutputParamIdMap⟩

/-- The part of `main` between a successful `loadConfig` and `plugin.Serve`:
the five maps start empty, are filled from the configuration, and make up the
`Converter` that is served. -/
def main (config : Protocol) : Converter :=
  rangeModels config.Models ⟨[], rangeDevices config.Devices [], [], [], []⟩

/-! ## Vocabulary of the statements -/

/-- An ASCII decimal digit. -/
def isDigit (c : Nat) : Prop := 48 ≤ c ∧ c ≤ 57

instance (c : Nat) : Decidable (isDigit c) := by unfold isDigit; infer_instance

/-- The two characters of slice `j` of a value, `value[2*j : 2*j+2]`. -/
def sliceAt (value : GoString) (j : Nat) : GoString := (value.drop (2 * j)).take 2

/-- The value of slice `j` when both of its characters are decimal digits. -/
def slotValue (value : GoString) (j : Nat) : Nat :=
  10 * (value.getD (2 * j) 0 - 48) + (value.getD (2 * j + 1) 0 - 48)

/-- Both characters of slice `j` are decimal digits. -/
def slotIsDigits (value : GoString) (j : Nat) : Prop :=
  isDigit (value.getD (2 * j) 0) ∧ isDigit (value.getD (2 * j + 1) 0)

instance (value : GoString) (j : Nat) : Decidable (slotIsDigits value j) := by
  unfold slotIsDigits; infer_instance

/-- The payload the packing rule yields for `N` output bytes. -/
def packed (value : GoString) (N : Nat) : List Nat :=
  (List.range N).map (fun i => if 2 * i + 1 < value.length then slotValue value i else 0)

/-- The length of the buffer `bytes` that encoding allocates for a descriptor:
`RegistryNum*2`, evaluated in the integer type `T`, for a holding registry and
`RegistryNum` otherwise; it is 0 when the product is negative, in which case
`make` panics and there is no buffer. -/
def bufferLen (T : GoIntType) (ty : String) (n : Nat) : Nat :=
  if ty = "holding registry" then (T.wrap (n * 2)).toNat else n

/-- A converter whose catalog holds one input parameter descriptor, stored
under the key `k`. -/
def catalogOf (k : String) (p : Param) : Converter := ⟨[], [], [], [(k, p)], []⟩

/-- The last element of a list, in list order, whose identifier is `id`. -/
def lastWithId {α : Type} (key : α → String) (xs : List α) (id : String) : Option α :=
  xs.reverse.find? (fun x => key x == id)

/-- Stores every element of a list, in list order, under its identifier. -/
def setAll {α : Type} (key : α → String) : List α → GoMap α → GoMap α
  | [], mp => mp
  | x :: xs, mp => setAll key xs (mapSet mp (key x) x)

/-- The input parameters a feature contributes to the catalog. -/
def featureInputs (f : Feature) : List Param :=
  if f.Type_ = "command" then f.InputParams else []

/-- The output parameters a feature contributes to the catalog. -/
def featureOutputs (f : Feature) : List Param :=
  if f.Type_ = "command" then f.OutputParams else []

/-- All features of a configuration, in document order. -/
def allFeatures (config : Protocol) : List Feature :=
  config.Models.flatMap (fun m => m.Features)

/-- The input parameters of the features of type `"command"`, in document
order. -/
def commandInputs (config : Protocol) : List Param :=
  (allFeatures config).flatMap featureInputs

/-- The output parameters of the features of type `"command"`, in document
order. -/
def commandOutputs (config : Protocol) : List Param :=
  (allFeatures config).flatMap featureOutputs

/-- A lowercase hexadecimal digit character, `0`-`9` or `a`-`f`. -/
def isHexDigit (c : Nat) : Prop := (48 ≤ c ∧ c ≤ 57) ∨ (97 ≤ c ∧ c ≤ 102)

instance (c : Nat) : Decidable (isHexDigit c) := by unfold isHexDigit; infer_instance

/-- The value of a lowercase hexadecimal digit character. -/
def hexDigitValue (c : Nat) : Nat := if c ≤ 57 then c - 48 else c - 87

/-- The number a text of lowercase hexadecimal digits denotes in base 16. -/
def hexValue (s : GoString) : Nat := s.foldl (fun acc c => acc * 16 + hexDigitValue c) 0

/-! ## Lemmas on the library functions and the packing loop -/

theorem digitVal_of_isDigit {c : Nat} (h : isDigit c) : digitVal c = some (c - 48) := by
  unfold isDigit at h
  simp [digitVal, h]

theorem digitVal_not_isDigit {c : Nat} (h : ¬ isDigit c) :
    digitVal c = none ∨ ∃ d, digitVal c = some d ∧ 10 ≤ d := by
  unfold isDigit at h
  unfold digitVal
  rw [if_neg h]
  by_cases h2 : 97 ≤ lower c ∧ lower c ≤ 122
  · right; exact ⟨_, by rw [if_pos h2], by omega⟩
  · left; rw [if_neg h2]

theorem parseLoop_digit (s0 : GoString) {c : Nat} (cs : List Nat) {n : Nat}
    (hc : isDigit c) (hn : n ≤ 6552) :
    parseLoop s0 10 (2 ^ 16 - 1) ((2 ^ 64 - 1) / 10 + 1) (c :: cs) n
      = parseLoop s0 10 (2 ^ 16 - 1) ((2 ^ 64 - 1) / 10 + 1) cs (n * 10 + (c - 48)) := by
  have hc2 := hc
  unfold isDigit at hc2
  have h1 : ¬ (c - 48 ≥ 10 % 256) := by omega
  have h2 : ¬ (n ≥ (2 ^ 64 - 1) / 10 + 1) := by norm_num; omega
  have h3 : (n * 10) % 2 ^ 64 = n * 10 := Nat.mod_eq_of_lt (by norm_num; omega)
  have h4 : (n * 10 + (c - 48)) % 2 ^ 64 = n * 10 + (c - 48) :=
    Nat.mod_eq_of_lt (by norm_num; omega)
  have h5 : ¬ (n * 10 + (c - 48) < n * 10 ∨ n * 10 + (c - 48) > 2 ^ 16 - 1) := by
    norm_num; omega
  rw [parseLoop, digitVal_of_isDigit hc]
  simp only [h1, h2, h3, h4, h5, if_false]

theorem parseLoop_bad (s0 : GoString) {c : Nat} (cs : List Nat) (n : Nat)
    (hc : ¬ isDigit c) :
    parseLoop s0 10 (2 ^ 16 - 1) ((2 ^ 64 - 1) / 10 + 1) (c :: cs) n
      = .error (.numError "ParseUint" s0 .ErrSyntax) := by
  rcases digitVal_not_isDigit hc with h0 | ⟨d, h1, h2⟩
  · rw [parseLoop, h0]
  · have h3 : d ≥ 10 % 256 := by omega
    rw [parseLoop, h1]
    simp only [h3, if_true]

theorem ParseUint_cons (a : Nat) (s : List Nat) :
    ParseUint (a :: s) 10 16
      = parseLoop (a :: s) 10 (2 ^ 16 - 1) ((2 ^ 64 - 1) / 10 + 1) (a :: s) 0 := by
  simp [ParseUint]

theorem ParseUint_two_digits {a b : Nat} (ha : isDigit a) (hb : isDigit b) :
    ParseUint [a, b] 10 16 = .ok (10 * (a - 48) + (b - 48)) := by
  have ha2 := ha
  unfold isDigit at ha2
  rw [ParseUint_cons, parseLoop_digit _ _ ha (by omega), parseLoop_digit _ _ hb (by omega),
    parseLoop]
  congr 1
  omega

theorem ParseUint_two_bad {a b : Nat} (h : ¬ (isDigit a ∧ isDigit b)) :
    ParseUint [a, b] 10 16 = .error (.numError "ParseUint" [a, b] .ErrSyntax) := by
  by_cases ha : isDigit a
  · have hb : ¬ isDigit b := fun hb => h ⟨ha, hb⟩
    have ha2 := ha
    unfold isDigit at ha2
    rw [ParseUint_cons, parseLoop_digit _ _ ha (by omega), parseLoop_bad _ _ _ hb]
  · rw [ParseUint_cons, parseLoop_bad _ _ _ ha]

theorem sliceAt_eq {value : GoString} {j : Nat} (h : 2 * j + 1 < value.length) :
    sliceAt value j = [value.getD (2 * j) 0, value.getD (2 * j + 1) 0] := by
  have h0 : 2 * j < value.length := by omega
  unfold sliceAt
  rw [List.drop_eq_getElem_cons h0, List.drop_eq_getElem_cons h,
    List.getD_eq_getElem _ _ h0, List.getD_eq_getElem _ _ h]
  rfl

theorem sliceStr_eq {value : GoString} {j : Nat} (h : 2 * (j + 1) - 1 < value.length) :
    sliceStr value (2 * j) (2 * (j + 1)) = .ok (sliceAt value j) := by
  have h1 : 2 * j ≤ 2 * (j + 1) ∧ 2 * (j + 1) ≤ value.length := by omega
  have h2 : 2 * (j + 1) - 2 * j = 2 := by omega
  rw [sliceStr, if_pos h1, h2, sliceAt]

theorem slotValue_le {value : GoString} {j : Nat} (h : slotIsDigits value j) :
    slotValue value j ≤ 99 := by
  unfold slotIsDigits isDigit at h
  unfold slotValue
  omega

theorem ParseUint_sliceAt_ok {value : GoString} {j : Nat} (h : 2 * j + 1 < value.length)
    (hd : slotIsDigits value j) : ParseUint (sliceAt value j) 10 16 = .ok (slotValue value j) := by
  rw [sliceAt_eq h, ParseUint_two_digits hd.1 hd.2, slotValue]

theorem ParseUint_sliceAt_bad {value : GoString} {j : Nat} (h : 2 * j + 1 < value.length)
    (hd : ¬ slotIsDigits value j) :
    ParseUint (sliceAt value j) 10 16
      = .error (.numError "ParseUint" (sliceAt value j) .ErrSyntax) := by
  rw [sliceAt_eq h, ParseUint_two_bad hd]

theorem packLoop_ok (value : GoString) (k : Nat) : ∀ (i : Nat) (bytes : List Nat),
    i + k ≤ bytes.length →
    (∀ j, i ≤ j → j < i + k → 2 * j + 1 < value.length → slotIsDigits value j) →
    ∃ out, packLoop value k i bytes = .ok (.ok out) ∧ out.length = bytes.length ∧
      ∀ j, out.getD j 0
        = if i ≤ j ∧ j < i + k ∧ 2 * j + 1 < value.length then slotValue value j
          else bytes.getD j 0 := by
  induction k with
  | zero =>
    intro i bytes _ _
    refine ⟨bytes, rfl, rfl, fun j => ?_⟩
    have : ¬ (i ≤ j ∧ j < i + 0 ∧ 2 * j + 1 < value.length) := by omega
    rw [if_neg this]
  | succ k ih =>
    intro i bytes hlen hdig
    by_cases hc : 2 * (i + 1) - 1 < value.length
    · have hc2 : 2 * i + 1 < value.length := by omega
      have hd := hdig i (le_refl i) (by omega) hc2
      have hst : storeByte bytes i (slotValue value i % 256)
          = .ok (bytes.set i (slotValue value i % 256)) := by
        rw [storeByte, if_pos (by omega)]
      obtain ⟨out, h1, h2, h3⟩ := ih (i + 1) (bytes.set i (slotValue value i % 256))
        (by rw [List.length_set]; omega)
        (fun j hj1 hj2 hj3 => hdig j (by omega) (by omega) hj3)
      refine ⟨out, ?_, ?_, fun j => ?_⟩
      · rw [packLoop, if_pos hc, sliceStr_eq hc]
        dsimp only
        rw [ParseUint_sliceAt_ok hc2 hd]
        dsimp only
        rw [hst]
        exact h1
      · rw [h2, List.length_set]
      · rw [h3 j]
        have hle := slotValue_le hd
        have hmod : slotValue value i % 256 = slotValue value i := Nat.mod_eq_of_lt (by omega)
        by_cases hji : j = i
        · subst hji
          have hn : ¬ (j + 1 ≤ j ∧ j < j + 1 + k ∧ 2 * j + 1 < value.length) := by omega
          have hp : j ≤ j ∧ j < j + (k + 1) ∧ 2 * j + 1 < value.length := by omega
          have hjl : j < bytes.length := by omega
          rw [if_neg hn, if_pos hp, hmod]
          simp [List.getD_eq_getElem?_getD, List.getElem?_set, hjl]
        · have hiff : (i + 1 ≤ j ∧ j < i + 1 + k ∧ 2 * j + 1 < value.length)
              ↔ (i ≤ j ∧ j < i + (k + 1) ∧ 2 * j + 1 < value.length) := by omega
          have hset : (bytes.set i (slotValue value i % 256)).getD j 0 = bytes.getD j 0 := by
            simp [List.getD_eq_getElem?_getD, List.getElem?_set, Ne.symm hji]
          simp only [hiff, hset]
    · obtain ⟨out, h1, h2, h3⟩ := ih (i + 1) bytes (by omega)
        (fun j hj1 hj2 hj3 => hdig j (by omega) (by omega) hj3)
      refine ⟨out, ?_, h2, fun j => ?_⟩
      · rw [packLoop, if_neg hc]
        exact h1
      · rw [h3 j]
        by_cases hji : j = i
        · subst hji
          have hn : ¬ (j + 1 ≤ j ∧ j < j + 1 + k ∧ 2 * j + 1 < value.length) := by omega
          have hp : ¬ (j ≤ j ∧ j < j + (k + 1) ∧ 2 * j + 1 < value.length) := by omega
          rw [if_neg hn, if_neg hp]
        · have hiff : (i + 1 ≤ j ∧ j < i + 1 + k ∧ 2 * j + 1 < value.length)
              ↔ (i ≤ j ∧ j < i + (k + 1) ∧ 2 * j + 1 < value.length) := by omega
          simp only [hiff]

theorem packLoop_err (value : GoString) (k : Nat) : ∀ (i : Nat) (bytes : List Nat),
    i + k ≤ bytes.length →
    (∃ j, i ≤ j ∧ j < i + k ∧ 2 * j + 1 < value.length ∧ ¬ slotIsDigits value j) →
    ∃ j, i ≤ j ∧ j < i + k ∧ 2 * j + 1 < value.length ∧ ¬ slotIsDigits value j ∧
      packLoop value k i bytes
        = .ok (.error (.numError "ParseUint" (sliceAt value j) .ErrSyntax)) := by
  induction k with
  | zero =>
    intro i bytes _ h
    obtain ⟨j, h1, h2, _⟩ := h
    omega
  | succ k ih =>
    intro i bytes hlen hbad
    by_cases hc : 2 * (i + 1) - 1 < value.length
    · have hc2 : 2 * i + 1 < value.length := by omega
      by_cases hd : slotIsDigits value i
      · have hst : storeByte bytes i (slotValue value i % 256)
            = .ok (bytes.set i (slotValue value i % 256)) := by
          rw [storeByte, if_pos (by omega)]
        obtain ⟨j, hj1, hj2, hj3, hj4⟩ := hbad
        have hne : j ≠ i := fun h => hj4 (h ▸ hd)
        obtain ⟨j2, g1, g2, g3, g4, g5⟩ := ih (i + 1) (bytes.set i (slotValue value i % 256))
          (by rw [List.length_set]; omega) ⟨j, by omega, by omega, hj3, hj4⟩
        refine ⟨j2, by omega, by omega, g3, g4, ?_⟩
        rw [packLoop, if_pos hc, sliceStr_eq hc]
        dsimp only
        rw [ParseUint_sliceAt_ok hc2 hd]
        dsimp only
        rw [hst]
        exact g5
      · refine ⟨i, le_refl i, by omega, hc2, hd, ?_⟩
        rw [packLoop, if_pos hc, sliceStr_eq hc]
        dsimp only
        rw [ParseUint_sliceAt_bad hc2 hd]
    · obtain ⟨j, hj1, hj2, hj3, hj4⟩ := hbad
      have hne : j ≠ i := by omega
      obtain ⟨j2, g1, g2, g3, g4, g5⟩ := ih (i + 1) bytes (by omega)
        ⟨j, by omega, by omega, hj3, hj4⟩
      refine ⟨j2, by omega, by omega, g3, g4, ?_⟩
      rw [packLoop, if_neg hc]
      exact g5

theorem list_eq_of_getD {a b : List Nat} (h1 : a.length = b.length)
    (h2 : ∀ j, a.getD j 0 = b.getD j 0) : a = b := by
  refine List.ext_getElem h1 (fun j hj1 hj2 => ?_)
  have h := h2 j
  rwa [List.getD_eq_getElem _ _ hj1, List.getD_eq_getElem _ _ hj2] at h

theorem getD_replicate_zero (N j : Nat) : (List.replicate N 0).getD j 0 = 0 := by
  by_cases h : j < N
  · rw [List.getD_eq_getElem _ _ (by simpa using h)]; simp
  · rw [List.getD_eq_default _ _ (by simpa using h)]

theorem getD_packed (value : GoString) (N j : Nat) :
    (packed value N).getD j 0
      = if j < N ∧ 2 * j + 1 < value.length then slotValue value j else 0 := by
  unfold packed
  by_cases h : j < N
  · rw [List.getD_eq_getElem _ _ (by simpa using h)]
    simp [h]
  · rw [List.getD_eq_default _ _ (by simpa using h)]
    simp [h]

theorem packLoop_digits (value : GoString) (N : Nat)
    (hdig : ∀ j, j < N → 2 * j + 1 < value.length → slotIsDigits value j) :
    packLoop value N 0 (List.replicate N 0) = .ok (.ok (packed value N)) := by
  obtain ⟨out, h1, h2, h3⟩ := packLoop_ok value N 0 (List.replicate N 0) (by simp)
    (fun j _ hj2 hj3 => hdig j (by omega) hj3)
  rw [h1]
  congr 2
  refine list_eq_of_getD (by simp [h2, packed]) (fun j => ?_)
  rw [h3 j, getD_packed, getD_replicate_zero]
  by_cases h : j < N ∧ 2 * j + 1 < value.length
  · rw [if_pos h, if_pos (by omega)]
  · rw [if_neg h, if_neg (by omega)]

theorem packLoop_bad (value : GoString) (N : Nat)
    (hbad : ∃ j, j < N ∧ 2 * j + 1 < value.length ∧ ¬ slotIsDigits value j) :
    ∃ j, j < N ∧ 2 * j + 1 < value.length ∧ ¬ slotIsDigits value j ∧
      packLoop value N 0 (List.replicate N 0)
        = .ok (.error (.numError "ParseUint" (sliceAt value j) .ErrSyntax)) := by
  obtain ⟨j, hj1, hj2, hj3⟩ := hbad
  obtain ⟨j2, _, g2, g3, g4, g5⟩ := packLoop_err value N 0 (List.replicate N 0) (by simp)
    ⟨j, Nat.zero_le j, by omega, hj2, hj3⟩
  exact ⟨j2, by omega, g3, g4, g5⟩

theorem packLoop_append (s t : GoString) (k : Nat) : ∀ (i : Nat) (bytes : List Nat),
    2 * (i + k) ≤ s.length → packLoop (s ++ t) k i bytes = packLoop s k i bytes := by
  induction k with
  | zero => intro i bytes _; rfl
  | succ k ih =>
    intro i bytes h
    have h1 : 2 * (i + 1) - 1 < (s ++ t).length := by rw [List.length_append]; omega
    have h2 : 2 * (i + 1) - 1 < s.length := by omega
    have h3 : sliceAt (s ++ t) i = sliceAt s i := by
      unfold sliceAt
      rw [List.drop_append_of_le_length (by omega),
        List.take_append_of_le_length (by rw [List.length_drop]; omega)]
    rw [packLoop, packLoop, if_pos h1, if_pos h2, sliceStr_eq h1, sliceStr_eq h2, h3]
    dsimp only
    cases ParseUint (sliceAt s i) 10 16 with
    | error e => rfl
    | ok v =>
      dsimp only
      cases storeByte bytes i (v % 256) with
      | error p => rfl
      | ok b2 => exact ih (i + 1) b2 (by omega)

theorem Uint16_bytes {b0 b1 : Nat} (rest : List Nat) (h0 : b0 < 256) (h1 : b1 < 256) :
    Uint16 (b0 :: b1 :: rest) = .ok (256 * b0 + b1) := by
  have h2 : (b0 <<< 8) % 65536 = 2 ^ 8 * b0 := by
    rw [Nat.shiftLeft_eq, Nat.mod_eq_of_lt (by omega)]; ring
  have h3 : b1 < 2 ^ 8 := by omega
  rw [Uint16, h2, Nat.lor_comm, ← Nat.mul_add_lt_is_or h3]

theorem digits_getD_eq : ∀ x, x < 16 → digits.getD x 0 = (Nat.digitChar x).toNat := by
  decide

theorem formatLoopPow2_hex (slots : Nat) : ∀ (u fuel : Nat) (L : List Char),
    u < 16 ^ (slots + 1) → u < fuel →
    formatLoopPow2 16 15 4 (slots + 1) u (L.map Char.toNat)
      = .ok ((Nat.toDigitsCore 16 fuel u L).map Char.toNat) := by
  induction slots with
  | zero =>
    intro u fuel L hu hf
    obtain ⟨f, rfl⟩ : ∃ f, fuel = f + 1 := ⟨fuel - 1, by omega⟩
    have h16 : ¬ (u ≥ 16) := by omega
    have hdiv : u / 16 = 0 := by omega
    have hmod : u % 16 = u := by omega
    rw [formatLoopPow2, if_neg h16, Nat.toDigitsCore, digits_getD_eq u (by omega)]
    simp [hdiv, hmod]
  | succ slots ih =>
    intro u fuel L hu hf
    obtain ⟨f, rfl⟩ : ∃ f, fuel = f + 1 := ⟨fuel - 1, by omega⟩
    by_cases h16 : u ≥ 16
    · have hdiv : u / 16 ≠ 0 := by omega
      have hshift : u >>> 4 = u / 16 := by rw [Nat.shiftRight_eq_div_pow]
      have hand : u &&& 15 = u % 16 := Nat.and_pow_two_sub_one_eq_mod u 4
      have hlt : u / 16 < 16 ^ (slots + 1) := by
        rw [Nat.div_lt_iff_lt_mul (by norm_num)]
        calc u < 16 ^ (slots + 1 + 1) := hu
          _ = 16 ^ (slots + 1) * 16 := by ring
      have hd := digits_getD_eq (u % 16) (Nat.mod_lt u (by norm_num))
      have := ih (u / 16) f (Nat.digitChar (u % 16) :: L) hlt (by omega)
      rw [formatLoopPow2, if_pos h16, hshift, hand, hd, Nat.toDigitsCore]
      simp only [hdiv, if_false]
      simpa using this
    · have hdiv : u / 16 = 0 := by omega
      have hmod : u % 16 = u := by omega
      rw [formatLoopPow2, if_neg h16, Nat.toDigitsCore, digits_getD_eq u (by omega)]
      simp [hdiv, hmod]

theorem FormatUint_hex {d : Nat} (h : d < 2 ^ 64) :
    FormatUint d 16 = .ok ((Nat.toDigits 16 d).map Char.toNat) := by
  have h1 : ¬ (16 < 2 ∨ 16 > 36) := by decide
  have h2 : 16 &&& (16 - 1) = 0 := by decide
  have h3 : TrailingZeros 16 = 4 := by decide
  have h4 : d < 16 ^ (64 + 1) := by
    calc d < 2 ^ 64 := h
      _ ≤ 16 ^ (64 + 1) := by norm_num
  rw [FormatUint, if_neg h1, if_pos h2, h3, Nat.mod_eq_of_lt h]
  exact formatLoopPow2_hex 64 d (d + 1) [] h4 (Nat.lt_succ_self d)



/-! ## Lemmas on the converter methods -/

theorem mapIndex_of_lookup {m : GoMap Param} {k : String} {p : Param}
    (h : m.lookup k = some p) : mapIndex m zeroParam k = p := by
  rw [mapIndex, h, Option.getD_some]

theorem wrap_of_le (T : GoIntType) {x : Nat} (h : x ≤ T.maxVal) : T.wrap x = (x : Int) := by
  cases T <;>
    simp only [GoIntType.maxVal, GoIntType.signed, GoIntType.bits, GoIntType.wrap] at h ⊢ <;>
    norm_num at h ⊢ <;> omega

theorem wrap_toNat_le (T : GoIntType) (x : Nat) : (T.wrap x).toNat ≤ x := by
  cases T <;>
    simp only [GoIntType.signed, GoIntType.bits, GoIntType.wrap] <;>
    norm_num <;> omega

theorem signed_of_wrap_neg (T : GoIntType) {x : Nat} (h : T.wrap x < 0) : T.signed = true := by
  cases T <;>
    simp only [GoIntType.signed, GoIntType.bits, GoIntType.wrap] at h ⊢ <;>
    norm_num at h <;> omega

theorem makeBytes_of_nonneg {len : Int} (h : ¬ len < 0) :
    makeBytes len = .ok (List.replicate len.toNat 0) := by
  rw [makeBytes, if_neg h]

theorem makeBytes_natCast (n : Nat) : makeBytes (n : Int) = .ok (List.replicate n 0) := by
  rw [makeBytes_of_nonneg (by omega), Int.toNat_ofNat]

theorem convert_holding (T : GoIntType) (c : Converter)
    (deviceId modelId featureId pid key : String) (n : Nat)
    (s : GoString) (rest : GoMap GoString)
    (hcat : c.InputParamIdMap.lookup featureId = some ⟨pid, "holding registry", n⟩)
    (hok : ¬ T.wrap (n * 2) < 0) :
    ConvertIssueMessage2Device T c deviceId modelId featureId (some ((key, s) :: rest))
      = issueReturn (packLoop s (T.wrap (n * 2)).toNat 0
          (List.replicate (T.wrap (n * 2)).toNat 0)) := by
  rw [ConvertIssueMessage2Device, rangeValues, mapIndex_of_lookup hcat]
  simp only [if_true, makeBytes_of_nonneg hok]

theorem convert_holding_panic (T : GoIntType) (c : Converter)
    (deviceId modelId featureId pid key : String) (n : Nat)
    (s : GoString) (rest : GoMap GoString)
    (hcat : c.InputParamIdMap.lookup featureId = some ⟨pid, "holding registry", n⟩)
    (hneg : T.wrap (n * 2) < 0) :
    ConvertIssueMessage2Device T c deviceId modelId featureId (some ((key, s) :: rest))
      = .error .makesliceLenOutOfRange := by
  rw [ConvertIssueMessage2Device, rangeValues, mapIndex_of_lookup hcat]
  simp only [if_true, makeBytes, if_pos hneg]

theorem convert_coil (T : GoIntType) (c : Converter)
    (deviceId modelId featureId pid key : String) (n : Nat)
    (s : GoString) (rest : GoMap GoString)
    (hcat : c.InputParamIdMap.lookup featureId = some ⟨pid, "coil", n⟩) :
    ConvertIssueMessage2Device T c deviceId modelId featureId (some ((key, s) :: rest))
      = issueReturn (packLoop s n 0 (List.replicate n 0)) := by
  have hne : ¬ ("coil" = "holding registry") := by decide
  rw [ConvertIssueMessage2Device, rangeValues, mapIndex_of_lookup hcat]
  simp only [hne, if_false, if_true, makeBytes_natCast]

theorem convert_eq (T : GoIntType) (c : Converter)
    (deviceId modelId featureId pid ty key : String) (n : Nat)
    (s : GoString) (rest : GoMap GoString)
    (hty : ty = "holding registry" ∨ ty = "coil")
    (hcat : c.InputParamIdMap.lookup featureId = some ⟨pid, ty, n⟩)
    (hok : ¬ (ty = "holding registry" ∧ T.wrap (n * 2) < 0)) :
    ConvertIssueMessage2Device T c deviceId modelId featureId (some ((key, s) :: rest))
      = issueReturn (packLoop s (bufferLen T ty n) 0 (List.replicate (bufferLen T ty n) 0)) := by
  rcases hty with h | h
  · subst h
    rw [convert_holding T c deviceId modelId featureId pid key n s rest hcat
      (fun hneg => hok ⟨rfl, hneg⟩), bufferLen, if_pos rfl]
  · subst h
    have hne : ¬ ("coil" = "holding registry") := by decide
    rw [convert_coil T c deviceId modelId featureId pid key n s rest hcat, bufferLen,
      if_neg hne]

theorem bufferLen_holding_of_le (T : GoIntType) {n : Nat} (h : 2 * n ≤ T.maxVal) :
    bufferLen T "holding registry" n = 2 * n ∧ ¬ T.wrap (n * 2) < 0 := by
  have hw : T.wrap (n * 2) = ((n * 2 : Nat) : Int) := wrap_of_le T (by omega)
  rw [bufferLen, if_pos rfl, hw]
  constructor
  · rw [Int.toNat_ofNat]; omega
  · omega

theorem bufferLen_le (T : GoIntType) (ty : String) (n : Nat) :
    bufferLen T ty n ≤ if ty = "holding registry" then 2 * n else n := by
  unfold bufferLen
  split_ifs
  · have := wrap_toNat_le T (n * 2); omega
  · exact le_refl n

theorem length_packed (value : GoString) (N : Nat) : (packed value N).length = N := by
  simp [packed]

theorem slotIsDigits_of_all {s : GoString} (h : ∀ b ∈ s, isDigit b) {j : Nat}
    (hj : 2 * j + 1 < s.length) : slotIsDigits s j := by
  have h0 : 2 * j < s.length := by omega
  refine ⟨?_, ?_⟩
  · rw [List.getD_eq_getElem _ _ h0]
    exact h _ (List.getElem_mem _)
  · rw [List.getD_eq_getElem _ _ hj]
    exact h _ (List.getElem_mem _)

theorem rangeValues_other (T : GoIntType) (c : Converter) (featureId : String)
    (h1 : (mapIndex c.InputParamIdMap zeroParam featureId).RegistryType ≠ "holding registry")
    (h2 : (mapIndex c.InputParamIdMap zeroParam featureId).RegistryType ≠ "coil") :
    ∀ entries : List (String × GoString),
      rangeValues T c featureId entries = .ok ⟨none, none, "", "", some noAnyMessages⟩ := by
  intro entries
  induction entries with
  | nil => rfl
  | cons e es ih =>
    obtain ⟨k, v⟩ := e
    rw [rangeValues, if_neg h1, if_neg h2, ih]

theorem lookup_of_registryType {c : Converter} {featureId ty : String}
    (hty : ty = "holding registry" ∨ ty = "coil")
    (h : (mapIndex c.InputParamIdMap zeroParam featureId).RegistryType = ty) :
    c.InputParamIdMap.lookup featureId
      = some ⟨(mapIndex c.InputParamIdMap zeroParam featureId).Id, ty,
          (mapIndex c.InputParamIdMap zeroParam featureId).RegistryNum⟩ := by
  unfold mapIndex at h ⊢
  cases hl : c.InputParamIdMap.lookup featureId with
  | none =>
    rw [hl] at h
    rcases hty with r | r <;> subst r <;> exact absurd h (by decide)
  | some q =>
    rw [hl] at h
    subst h
    rfl

theorem not_forall_slots {s : GoString} {N : Nat}
    (h : ¬ ∀ j, j < N → 2 * j + 1 < s.length → slotIsDigits s j) :
    ∃ j, j < N ∧ 2 * j + 1 < s.length ∧ ¬ slotIsDigits s j := by
  by_contra hcon
  exact h (fun j h1 h2 => by
    by_contra h3
    exact hcon ⟨j, h1, h2, h3⟩)

theorem convert_outcome_aux (T : GoIntType) (c : Converter)
    (deviceId modelId featureId key : String)
    (s : GoString) (rest : GoMap GoString) (ty : String)
    (hty : ty = "holding registry" ∨ ty = "coil")
    (h : (mapIndex c.InputParamIdMap zeroParam featureId).RegistryType = ty) :
    ConvertIssueMessage2Device T c deviceId modelId featureId (some ((key, s) :: rest))
        = .ok ⟨none, none, "", "", some noAnyMessages⟩
    ∨ (∃ key2 s2 rest2 ty2 n, some ((key, s) :: rest) = some ((key2, s2) :: rest2)
        ∧ (ty2 = "holding registry" ∨ ty2 = "coil")
        ∧ (∀ j, j < bufferLen T ty2 n → 2 * j + 1 < s2.length → slotIsDigits s2 j)
        ∧ ConvertIssueMessage2Device T c deviceId modelId featureId (some ((key, s) :: rest))
            = .ok ⟨some [packed s2 (bufferLen T ty2 n)], none, "", "", none⟩)
    ∨ (∃ key2 s2 rest2 j, some ((key, s) :: rest) = some ((key2, s2) :: rest2)
        ∧ 2 * j + 1 < s2.length ∧ ¬ slotIsDigits s2 j
        ∧ ConvertIssueMessage2Device T c deviceId modelId featureId (some ((key, s) :: rest))
            = .ok ⟨none, none, "", "", some (.numError "ParseUint" (sliceAt s2 j) .ErrSyntax)⟩)
    ∨ (ConvertIssueMessage2Device T c deviceId modelId featureId (some ((key, s) :: rest))
          = .error .makesliceLenOutOfRange
        ∧ T.signed = true
        ∧ (mapIndex c.InputParamIdMap zeroParam featureId).RegistryType = "holding registry"
        ∧ T.wrap ((mapIndex c.InputParamIdMap zeroParam featureId).RegistryNum * 2) < 0) := by
  have hcat := lookup_of_registryType hty h
  by_cases hp : ty = "holding registry"
      ∧ T.wrap ((mapIndex c.InputParamIdMap zeroParam featureId).RegistryNum * 2) < 0
  · right; right; right
    obtain ⟨hp1, hp2⟩ := hp
    subst hp1
    exact ⟨convert_holding_panic T c deviceId modelId featureId _ key _ s rest hcat hp2,
      signed_of_wrap_neg T hp2, h, hp2⟩
  · rw [convert_eq T c deviceId modelId featureId _ ty key _ s rest hty hcat hp]
    by_cases hall : ∀ j,
        j < bufferLen T ty (mapIndex c.InputParamIdMap zeroParam featureId).RegistryNum →
        2 * j + 1 < s.length → slotIsDigits s j
    · right; left
      refine ⟨key, s, rest, ty, _, rfl, hty, hall, ?_⟩
      rw [packLoop_digits s _ hall]; rfl
    · right; right; left
      obtain ⟨j, _, g2, g3, g4⟩ := packLoop_bad s _ (not_forall_slots hall)
      refine ⟨key, s, rest, j, rfl, g2, g3, ?_⟩
      rw [g4]; rfl

/-- The four ways a call of `ConvertIssueMessage2Device` can end. -/
theorem convert_outcome (T : GoIntType) (c : Converter) (deviceId modelId featureId : String)
    (values : Option (GoMap GoString)) :
    ConvertIssueMessage2Device T c deviceId modelId featureId values
        = .ok ⟨none, none, "", "", some noAnyMessages⟩
    ∨ (∃ key s rest ty n, values = some ((key, s) :: rest)
        ∧ (ty = "holding registry" ∨ ty = "coil")
        ∧ (∀ j, j < bufferLen T ty n → 2 * j + 1 < s.length → slotIsDigits s j)
        ∧ ConvertIssueMessage2Device T c deviceId modelId featureId values
            = .ok ⟨some [packed s (bufferLen T ty n)], none, "", "", none⟩)
    ∨ (∃ key s rest j, values = some ((key, s) :: rest)
        ∧ 2 * j + 1 < s.length ∧ ¬ slotIsDigits s j
        ∧ ConvertIssueMessage2Device T c deviceId modelId featureId values
            = .ok ⟨none, none, "", "", some (.numError "ParseUint" (sliceAt s j) .ErrSyntax)⟩)
    ∨ (ConvertIssueMessage2Device T c deviceId modelId featureId values
          = .error .makesliceLenOutOfRange
        ∧ T.signed = true
        ∧ (mapIndex c.InputParamIdMap zeroParam featureId).RegistryType = "holding registry"
        ∧ T.wrap ((mapIndex c.InputParamIdMap zeroParam featureId).RegistryNum * 2) < 0) := by
  match values with
  | none => left; rfl
  | some [] => left; rfl
  | some ((key, s) :: rest) =>
    by_cases h1 : (mapIndex c.InputParamIdMap zeroParam featureId).RegistryType
        = "holding registry"
    · exact convert_outcome_aux T c deviceId modelId featureId key s rest _ (Or.inl rfl) h1
    · by_cases h2 : (mapIndex c.InputParamIdMap zeroParam featureId).RegistryType = "coil"
      · exact convert_outcome_aux T c deviceId modelId featureId key s rest _ (Or.inr rfl) h2
      · left
        exact rangeValues_other T c featureId h1 h2 _

theorem packLoop_returns (value : GoString) (N : Nat) :
    ∃ x, packLoop value N 0 (List.replicate N 0) = .ok x := by
  by_cases hall : ∀ j, j < N → 2 * j + 1 < value.length → slotIsDigits value j
  · exact ⟨_, packLoop_digits value N hall⟩
  · obtain ⟨j, _, _, _, g4⟩ := packLoop_bad value N (not_forall_slots hall)
    exact ⟨_, g4⟩

theorem packed_le (value : GoString) (N : Nat)
    (hall : ∀ j, j < N → 2 * j + 1 < value.length → slotIsDigits value j) :
    ∀ x ∈ packed value N, x ≤ 99 := by
  intro x hx
  unfold packed at hx
  rw [List.mem_map] at hx
  obtain ⟨i, hi, rfl⟩ := hx
  rw [List.mem_range] at hi
  by_cases h : 2 * i + 1 < value.length
  · rw [if_pos h]; exact slotValue_le (hall i hi h)
  · rw [if_neg h]; omega

theorem overflow_count_facts (T : GoIntType) :
    1 ≤ T.maxVal / 2 + 1 ∧ T.maxVal / 2 + 1 ≤ T.maxVal
      ∧ T.wrap ((T.maxVal / 2 + 1) * 2) ≤ 0 := by
  cases T <;> decide

theorem overflow_breaks_length (T : GoIntType) (c : Converter)
    (deviceId modelId featureId pid key : String) (s : GoString) (rest : GoMap GoString)
    (hcat : c.InputParamIdMap.lookup featureId
      = some ⟨pid, "holding registry", T.maxVal / 2 + 1⟩) :
    ¬ ∃ B : GoString, B.length = 2 * (T.maxVal / 2 + 1)
      ∧ ConvertIssueMessage2Device T c deviceId modelId featureId (some ((key, s) :: rest))
          = .ok ⟨some [B], none, "", "", none⟩ := by
  obtain ⟨_, _, hw⟩ := overflow_count_facts T
  rintro ⟨B, hl, h⟩
  by_cases hneg : T.wrap ((T.maxVal / 2 + 1) * 2) < 0
  · rw [convert_holding_panic T c deviceId modelId featureId pid key _ s rest hcat hneg] at h
    simp at h
  · have h0 : (T.wrap ((T.maxVal / 2 + 1) * 2)).toNat = 0 := by omega
    rw [convert_holding T c deviceId modelId featureId pid key _ s rest hcat hneg, h0] at h
    simp only [packLoop, List.replicate, issueReturn, Except.ok.injEq, IssueResult.mk.injEq,
      Option.some.injEq, List.cons.injEq, and_true] at h
    rw [← h] at hl
    simp at hl

/-! ## The claims -/

/-- C1 as stated fails: the count is doubled in the integer type of the field
`RegistryNum`, and the product can leave that type. With a 16-bit unsigned
count of 32768 the product wraps to 0 and the payload has 0 bytes, not 65536;
with a 32-bit signed count of 2^30 the product is negative and `make` panics;
and every integer type has a count of at least 1, the successor of half its
largest value, for which no payload of `2n` bytes is returned. -/
theorem C1_doubled_count_counterexample :
    ConvertIssueMessage2Device .uint16 (catalogOf "p" ⟨"p", "holding registry", 32768⟩)
        "d" "m" "p" (some [("p", [])]) = .ok ⟨some [[]], none, "", "", none⟩
    ∧ ConvertIssueMessage2Device .int32 (catalogOf "p" ⟨"p", "holding registry", 1073741824⟩)
        "d" "m" "p" (some [("p", [])]) = .error .makesliceLenOutOfRange
    ∧ ∀ T : GoIntType, 1 ≤ T.maxVal / 2 + 1 ∧ T.maxVal / 2 + 1 ≤ T.maxVal
        ∧ ¬ ∃ B : GoString, B.length = 2 * (T.maxVal / 2 + 1)
          ∧ ConvertIssueMessage2Device T
              (catalogOf "p" ⟨"p", "holding registry", T.maxVal / 2 + 1⟩)
              "d" "m" "p" (some [("p", [])]) = .ok ⟨some [B], none, "", "", none⟩ :=
  ⟨by decide, by decide, fun T =>
    ⟨(overflow_count_facts T).1, (overflow_count_facts T).2.1,
      overflow_breaks_length T _ "d" "m" "p" "p" "p" [] [] (by
        show List.lookup "p" [("p", _)] = _
        rw [List.lookup_cons_self])⟩⟩

/-- C1 amended: with a holding-registry descriptor of count `n` whose double
`2n` is representable in the integer type of `RegistryNum`, and a single value
`s` whose complete 2-character slices among the first `2n` are pairs of decimal
digits, encoding succeeds with one byte string of length `2n` whose byte `i` is
`10*(s[2i]-'0') + (s[2i+1]-'0')` when `2i+1 < len(s)` and `0` otherwise. -/
theorem C1_holding_registry_payload (T : GoIntType) (c : Converter)
    (deviceId modelId featureId pid key : String) (n : Nat) (s : GoString)
    (hfit : 2 * n ≤ T.maxVal)
    (hcat : c.InputParamIdMap.lookup featureId = some ⟨pid, "holding registry", n⟩)
    (hs : ∀ i, i < 2 * n → 2 * i + 1 < s.length →
      isDigit (s.getD (2 * i) 0) ∧ isDigit (s.getD (2 * i + 1) 0)) :
    ConvertIssueMessage2Device T c deviceId modelId featureId (some [(key, s)])
      = .ok ⟨some [(List.range (2 * n)).map (fun i =>
          if 2 * i + 1 < s.length
          then 10 * (s.getD (2 * i) 0 - 48) + (s.getD (2 * i + 1) 0 - 48) else 0)],
        none, "", "", none⟩ := by
  obtain ⟨hlen, hok⟩ := bufferLen_holding_of_le T hfit
  rw [convert_eq T c deviceId modelId featureId pid "holding registry" key n s []
    (Or.inl rfl) hcat (fun h => hok h.2), hlen, packLoop_digits s (2 * n) hs]
  rfl

/-- C1 amended, at a 16-bit unsigned count `n = 2` and `s = "0102"`: the
payload is `[1, 2, 0, 0]`. -/
theorem C1_holding_registry_payload_witness :
    ConvertIssueMessage2Device .uint16 (catalogOf "p" ⟨"p", "holding registry", 2⟩) "d" "m" "p"
      (some [("p", [48, 49, 48, 50])]) = .ok ⟨some [[1, 2, 0, 0]], none, "", "", none⟩ :=
  C1_holding_registry_payload .uint16 (catalogOf "p" ⟨"p", "holding registry", 2⟩)
    "d" "m" "p" "p" "p" 2 [48, 49, 48, 50] (by decide) (by decide) (by decide)

/-- C2: with a coil descriptor of count `n` and a single value `s` whose
complete 2-character slices among the first `n` are pairs of decimal digits,
encoding succeeds with one byte string of length `n` (not `2n`) whose byte `i`
is the decimal value of `s[2i..2i+2]` when `2i+1 < len(s)` and `0` otherwise. -/
theorem C2_coil_payload (T : GoIntType) (c : Converter)
    (deviceId modelId featureId pid key : String) (n : Nat) (s : GoString)
    (hcat : c.InputParamIdMap.lookup featureId = some ⟨pid, "coil", n⟩)
    (hs : ∀ i, i < n → 2 * i + 1 < s.length →
      isDigit (s.getD (2 * i) 0) ∧ isDigit (s.getD (2 * i + 1) 0)) :
    ConvertIssueMessage2Device T c deviceId modelId featureId (some [(key, s)])
      = .ok ⟨some [(List.range n).map (fun i =>
          if 2 * i + 1 < s.length
          then 10 * (s.getD (2 * i) 0 - 48) + (s.getD (2 * i + 1) 0 - 48) else 0)],
        none, "", "", none⟩ := by
  rw [convert_coil T c deviceId modelId featureId pid key n s [] hcat, packLoop_digits s n hs]
  rfl

/-- C2, at `n = 3` and `s = "050607"`: the payload is `[5, 6, 7]`. -/
theorem C2_coil_payload_witness :
    ConvertIssueMessage2Device .uint16 (catalogOf "p" ⟨"p", "coil", 3⟩) "d" "m" "p"
      (some [("p", [48, 53, 48, 54, 48, 55])]) = .ok ⟨some [[5, 6, 7]], none, "", "", none⟩ :=
  C2_coil_payload .uint16 (catalogOf "p" ⟨"p", "coil", 3⟩) "d" "m" "p" "p" "p" 3
    [48, 53, 48, 54, 48, 55] (by decide) (by decide)

/-- C3 as stated fails for a holding registry whose doubled count leaves the
integer type of `RegistryNum`: with an 8-bit unsigned count of 128 and the
all-digit value `"01"` the payload has 0 bytes, not 256; with a 16-bit signed
count of 16384 `make` panics and there is no payload; and every integer type
has a count of at least 1 for which no payload of `2n` bytes is returned. -/
theorem C3_doubled_count_counterexample :
    (∀ b ∈ ([48, 49] : GoString), isDigit b)
    ∧ ConvertIssueMessage2Device .uint8 (catalogOf "p" ⟨"p", "holding registry", 128⟩)
        "d" "m" "p" (some [("p", [48, 49])]) = .ok ⟨some [[]], none, "", "", none⟩
    ∧ ConvertIssueMessage2Device .int16 (catalogOf "p" ⟨"p", "holding registry", 16384⟩)
        "d" "m" "p" (some [("p", [48, 49])]) = .error .makesliceLenOutOfRange
    ∧ ∀ T : GoIntType, 1 ≤ T.maxVal / 2 + 1 ∧ T.maxVal / 2 + 1 ≤ T.maxVal
        ∧ ¬ ∃ B : GoString, B.length = 2 * (T.maxVal / 2 + 1)
          ∧ ConvertIssueMessage2Device T
              (catalogOf "p" ⟨"p", "holding registry", T.maxVal / 2 + 1⟩)
              "d" "m" "p" (some [("p", [48, 49])]) = .ok ⟨some [B], none, "", "", none⟩ :=
  ⟨by decide, by decide, by decide, fun T =>
    ⟨(overflow_count_facts T).1, (overflow_count_facts T).2.1,
      overflow_breaks_length T _ "d" "m" "p" "p" "p" [48, 49] [] (by
        show List.lookup "p" [("p", _)] = _
        rw [List.lookup_cons_self])⟩⟩

/-- C3 amended: for a value made of decimal digits only, of any length,
encoding succeeds and the payload has exactly `2n` bytes for a holding registry
whose doubled count `2n` is representable in the integer type of `RegistryNum`,
and exactly `n` bytes for a coil, whatever the value. -/
theorem C3_payload_length (T : GoIntType) (c : Converter)
    (deviceId modelId featureId pid ty key : String) (n : Nat) (s : GoString)
    (hty : ty = "holding registry" ∨ ty = "coil")
    (hfit : ty = "holding registry" → 2 * n ≤ T.maxVal)
    (hcat : c.InputParamIdMap.lookup featureId = some ⟨pid, ty, n⟩)
    (hs : ∀ b ∈ s, isDigit b) :
    ∃ B, ConvertIssueMessage2Device T c deviceId modelId featureId (some [(key, s)])
        = .ok ⟨some [B], none, "", "", none⟩
      ∧ B.length = if ty = "holding registry" then 2 * n else n := by
  have hok : ¬ (ty = "holding registry" ∧ T.wrap (n * 2) < 0) :=
    fun h => (bufferLen_holding_of_le T (hfit h.1)).2 h.2
  have hlen : bufferLen T ty n = if ty = "holding registry" then 2 * n else n := by
    by_cases h : ty = "holding registry"
    · rw [if_pos h, h]; exact (bufferLen_holding_of_le T (hfit h)).1
    · rw [if_neg h, bufferLen, if_neg h]
  refine ⟨packed s (bufferLen T ty n), ?_, by rw [length_packed, hlen]⟩
  rw [convert_eq T c deviceId modelId featureId pid ty key n s [] hty hcat hok,
    packLoop_digits s (bufferLen T ty n) (fun j _ hj => slotIsDigits_of_all hs hj)]
  rfl

/-- C3 amended, at an odd-length value `"123"` with a holding registry of
count 1 (two bytes), and at the empty value with a coil of count 2 (two
bytes). -/
theorem C3_payload_length_witness :
    (∃ B, ConvertIssueMessage2Device .uint16 (catalogOf "p" ⟨"p", "holding registry", 1⟩)
        "d" "m" "p" (some [("p", [49, 50, 51])]) = .ok ⟨some [B], none, "", "", none⟩
      ∧ B.length = 2)
    ∧ (∃ B, ConvertIssueMessage2Device .uint16 (catalogOf "p" ⟨"p", "coil", 2⟩) "d" "m" "p"
        (some [("p", [])]) = .ok ⟨some [B], none, "", "", none⟩ ∧ B.length = 2) :=
  ⟨C3_payload_length .uint16 (catalogOf "p" ⟨"p", "holding registry", 1⟩) "d" "m" "p" "p"
      "holding registry" "p" 1 [49, 50, 51] (by decide) (by decide) (by decide) (by decide),
   C3_payload_length .uint16 (catalogOf "p" ⟨"p", "coil", 2⟩) "d" "m" "p" "p"
      "coil" "p" 2 [] (by decide) (by decide) (by decide) (by decide)⟩

/-- C4: when the first message `m` is a non-empty byte string, decoding
succeeds with an empty topic and the payload is the lowercase base-16 text,
without prefix and without leading zeros, of `256*m[0] + m[1]`, where `m[1]`
counts as `0` for a one-byte message. -/
theorem C4_decode_hex (c : Converter) (m : GoString) (rest : List GoString)
    (featureType : String) (hm : m ≠ []) (hb : IsByteString m) :
    ConvertDeviceMessages2MQFormat c (some (m :: rest)) featureType
      = .ok ⟨"", some ((Nat.toDigits 16 (256 * m.getD 0 0 + m.getD 1 0)).map Char.toNat),
          none⟩ := by
  match m, hm, hb with
  | [b0], _, hb =>
    have h0 : b0 < 256 := hb b0 (by simp)
    have hd : 256 * b0 + 0 < 2 ^ 64 := by norm_num; omega
    have hu : Uint16 ([b0] ++ [0]) = .ok (256 * b0 + 0) := Uint16_bytes [] h0 (by norm_num)
    simp only [ConvertDeviceMessages2MQFormat, List.length_singleton, if_true, hu,
      FormatUint_hex hd, Nat.lt_one_iff, gt_iff_lt, Nat.zero_lt_one]
    rfl
  | b0 :: b1 :: tl, _, hb =>
    have h0 : b0 < 256 := hb b0 (by simp)
    have h1 : b1 < 256 := hb b1 (by simp)
    have hd : 256 * b0 + b1 < 2 ^ 64 := by norm_num; omega
    have hl : ¬ ((b0 :: b1 :: tl).length = 1) := by simp
    have hp : (b0 :: b1 :: tl).length > 0 := by simp
    simp only [ConvertDeviceMessages2MQFormat, hl, hp, if_true, if_false,
      Uint16_bytes tl h0 h1, FormatUint_hex hd]
    rfl

/-- C4, at the messages `[0x01, 0x02]` (payload `"102"`) and `[0xff]`
(payload `"ff00"`). -/
theorem C4_decode_hex_witness :
    ConvertDeviceMessages2MQFormat (catalogOf "p" zeroParam) (some [[1, 2]]) "t"
        = .ok ⟨"", some [49, 48, 50], none⟩
    ∧ ConvertDeviceMessages2MQFormat (catalogOf "p" zeroParam) (some [[255], [9]]) "t"
        = .ok ⟨"", some [102, 102, 48, 48], none⟩ :=
  ⟨C4_decode_hex (catalogOf "p" zeroParam) [1, 2] [] "t" (by decide) (by decide),
   C4_decode_hex (catalogOf "p" zeroParam) [255] [[9]] "t" (by decide) (by decide)⟩

/-- C5: with a holding-registry or coil descriptor and a non-empty value
mapping, encoding fails with a parse error exactly when some processed slice of
the visited value (slice `i` below the length of the buffer that the call
allocates, with `2i+1 < len(value)`) holds a character that is not a decimal
digit; whenever an error is returned, no payload is returned; and the buffer
length is `2n` for a holding registry whose doubled count is representable in
the integer type of `RegistryNum`, and `n` for a coil. -/
theorem C5_parse_error_iff (T : GoIntType) (c : Converter)
    (deviceId modelId featureId pid ty key : String) (n : Nat) (s : GoString)
    (rest : GoMap GoString)
    (hty : ty = "holding registry" ∨ ty = "coil")
    (hcat : c.InputParamIdMap.lookup featureId = some ⟨pid, ty, n⟩) :
    ((∃ r num kind,
        ConvertIssueMessage2Device T c deviceId modelId featureId (some ((key, s) :: rest))
          = .ok r
        ∧ r.err = some (.numError "ParseUint" num kind))
      ↔ ∃ i, i < bufferLen T ty n ∧ 2 * i + 1 < s.length ∧
          ¬ (isDigit (s.getD (2 * i) 0) ∧ isDigit (s.getD (2 * i + 1) 0)))
    ∧ (∀ r, ConvertIssueMessage2Device T c deviceId modelId featureId (some ((key, s) :: rest))
        = .ok r → r.err ≠ none → r.inputMessages = none)
    ∧ (2 * n ≤ T.maxVal → bufferLen T "holding registry" n = 2 * n)
    ∧ bufferLen T "coil" n = n := by
  refine ⟨?_, ?_, fun h => (bufferLen_holding_of_le T h).1, ?_⟩
  · by_cases hp : ty = "holding registry" ∧ T.wrap (n * 2) < 0
    · obtain ⟨hp1, hp2⟩ := hp
      subst hp1
      rw [convert_holding_panic T c deviceId modelId featureId pid key n s rest hcat hp2]
      have h0 : bufferLen T "holding registry" n = 0 := by
        rw [bufferLen, if_pos rfl]; omega
      constructor
      · rintro ⟨r, _, _, h1, _⟩
        simp at h1
      · rintro ⟨i, h1, _, _⟩
        omega
    · rw [convert_eq T c deviceId modelId featureId pid ty key n s rest hty hcat hp]
      by_cases hall : ∀ j, j < bufferLen T ty n → 2 * j + 1 < s.length → slotIsDigits s j
      · rw [packLoop_digits s _ hall]
        constructor
        · rintro ⟨r, num, kind, h1, h2⟩
          simp only [issueReturn, Except.ok.injEq] at h1
          subst h1
          simp at h2
        · rintro ⟨i, h1, h2, h3⟩
          exact absurd (hall i h1 h2) h3
      · obtain ⟨j, g1, g2, g3, g4⟩ := packLoop_bad s _ (not_forall_slots hall)
        rw [g4]
        exact ⟨fun _ => ⟨j, g1, g2, g3⟩, fun _ => ⟨_, _, _, rfl, rfl⟩⟩
  · intro r h1 h2
    rcases convert_outcome T c deviceId modelId featureId (some ((key, s) :: rest)) with
      g | ⟨_, _, _, _, _, _, _, _, g⟩ | ⟨_, _, _, _, _, _, _, g⟩ | ⟨g, _⟩
    · rw [g] at h1; simp only [Except.ok.injEq] at h1; subst h1; rfl
    · rw [g] at h1; simp only [Except.ok.injEq] at h1; subst h1; simp at h2
    · rw [g] at h1; simp only [Except.ok.injEq] at h1; subst h1; rfl
    · rw [g] at h1; simp at h1
  · have hne : ¬ ("coil" = "holding registry") := by decide
    rw [bufferLen, if_neg hne]

/-- C5, at the value `"1a"` with a holding registry of count 1: the parse
error for the text `"1a"` is returned, without payload. -/
theorem C5_parse_error_iff_witness :
    ConvertIssueMessage2Device .uint16 (catalogOf "p" ⟨"p", "holding registry", 1⟩) "d" "m" "p"
        (some [("p", [49, 97])])
      = .ok ⟨none, none, "", "", some (.numError "ParseUint" [49, 97] .ErrSyntax)⟩
    ∧ ∃ r num kind,
        ConvertIssueMessage2Device .uint16 (catalogOf "p" ⟨"p", "holding registry", 1⟩)
          "d" "m" "p" (some [("p", [49, 97])]) = .ok r
        ∧ r.err = some (.numError "ParseUint" num kind) :=
  ⟨by decide,
   (C5_parse_error_iff .uint16 (catalogOf "p" ⟨"p", "holding registry", 1⟩) "d" "m" "p" "p"
      "holding registry" "p" 1 [49, 97] [] (by decide) (by decide)).1.2
      ⟨0, by decide, by decide, by decide⟩⟩

/-- C6: a message list that is empty but not nil makes
`ConvertDeviceMessages2MQFormat` panic on `messages[0]` instead of returning
the "No any messages." error; a nil list and an empty first message do return
that error. -/
theorem C6_empty_list_panics (c : Converter) (featureType : String)
    (rest : List GoString) :
    ConvertDeviceMessages2MQFormat c (some []) featureType = .error .indexOutOfRange
    ∧ ConvertDeviceMessages2MQFormat c none featureType
        = .ok ⟨"", none, some (.errorf "No any messages.")⟩
    ∧ ConvertDeviceMessages2MQFormat c (some ([] :: rest)) featureType
        = .ok ⟨"", none, some (.errorf "No any messages.")⟩ :=
  ⟨rfl, rfl, rfl⟩

/-- C7 as stated fails: for the value `"012"` and a holding registry of count 1
(two output bytes), slice 1 starts at offset 2, inside the value, and its text
`"2"` parses to 2; yet, whatever the integer type of the count, encoding
succeeds with `[1, 0]`: output byte 1 keeps the zero default and the
one-character slice is not processed. -/
theorem C7_start_offset_counterexample :
    2 * 1 < ([48, 49, 50] : GoString).length
    ∧ ParseUint ((([48, 49, 50] : GoString).drop (2 * 1)).take 2) 10 16 = .ok 2
    ∧ ∀ T : GoIntType,
        ConvertIssueMessage2Device T (catalogOf "p" ⟨"p", "holding registry", 1⟩) "d" "m" "p"
          (some [("p", [48, 49, 50])]) = .ok ⟨some [[1, 0]], none, "", "", none⟩ :=
  ⟨by decide, by decide, fun T => by cases T <;> decide⟩

/-- C7 amended: slice `i` (below the length of the buffer that the call
allocates) is parsed and stored at output byte `i` exactly when the whole slice
lies within the value (`2i+1 < len(value)`). Either encoding succeeds with a
payload of the buffer length in which byte `i` is the low 8 bits of the parsed
slice `i` when `2i+1 < len(value)` and `0` otherwise, or it returns the parse
error of a slice `i` with `2i+1 < len(value)`, or the doubled count of a
holding registry is negative in the integer type of `RegistryNum` and `make`
panics before any slice is taken. The buffer length is `2n` for a holding
registry whose doubled count is representable in that type, and `n` for a
coil. -/
theorem C7_complete_slices_only (T : GoIntType) (c : Converter)
    (deviceId modelId featureId pid ty key : String) (n : Nat) (s : GoString)
    (rest : GoMap GoString)
    (hty : ty = "holding registry" ∨ ty = "coil")
    (hcat : c.InputParamIdMap.lookup featureId = some ⟨pid, ty, n⟩) :
    ((∃ B, ConvertIssueMessage2Device T c deviceId modelId featureId (some ((key, s) :: rest))
          = .ok ⟨some [B], none, "", "", none⟩
        ∧ B.length = bufferLen T ty n
        ∧ ∀ i, i < bufferLen T ty n →
            if 2 * i + 1 < s.length
            then ∃ v, ParseUint ((s.drop (2 * i)).take 2) 10 16 = .ok v ∧ B.getD i 0 = v % 256
            else B.getD i 0 = 0)
      ∨ (∃ i err, i < bufferLen T ty n ∧ 2 * i + 1 < s.length
          ∧ ParseUint ((s.drop (2 * i)).take 2) 10 16 = .error err
          ∧ ConvertIssueMessage2Device T c deviceId modelId featureId (some ((key, s) :: rest))
            = .ok ⟨none, none, "", "", some err⟩)
      ∨ (ty = "holding registry" ∧ T.wrap (n * 2) < 0
          ∧ ConvertIssueMessage2Device T c deviceId modelId featureId (some ((key, s) :: rest))
            = .error .makesliceLenOutOfRange))
    ∧ (2 * n ≤ T.maxVal → bufferLen T "holding registry" n = 2 * n)
    ∧ bufferLen T "coil" n = n := by
  refine ⟨?_, fun h => (bufferLen_holding_of_le T h).1, ?_⟩
  · by_cases hp : ty = "holding registry" ∧ T.wrap (n * 2) < 0
    · right; right
      obtain ⟨hp1, hp2⟩ := hp
      subst hp1
      exact ⟨rfl, hp2,
        convert_holding_panic T c deviceId modelId featureId pid key n s rest hcat hp2⟩
    · rw [convert_eq T c deviceId modelId featureId pid ty key n s rest hty hcat hp]
      by_cases hall : ∀ j, j < bufferLen T ty n → 2 * j + 1 < s.length → slotIsDigits s j
      · left
        refine ⟨packed s (bufferLen T ty n), ?_, length_packed s _, fun i hi => ?_⟩
        · rw [packLoop_digits s _ hall]; rfl
        · by_cases h2 : 2 * i + 1 < s.length
          · rw [if_pos h2]
            refine ⟨slotValue s i, ParseUint_sliceAt_ok h2 (hall i hi h2), ?_⟩
            have hle := slotValue_le (hall i hi h2)
            rw [getD_packed, if_pos ⟨hi, h2⟩, Nat.mod_eq_of_lt (by omega)]
          · rw [if_neg h2, getD_packed, if_neg (fun h => h2 h.2)]
      · right; left
        obtain ⟨j, g1, g2, g3, g4⟩ := packLoop_bad s _ (not_forall_slots hall)
        refine ⟨j, _, g1, g2, ParseUint_sliceAt_bad g2 g3, ?_⟩
        rw [g4]; rfl
  · have hne : ¬ ("coil" = "holding registry") := by decide
    rw [bufferLen, if_neg hne]

/-- C7 amended, at the odd-length value `"01a"` with a holding registry of
count 1: the trailing one-character slice `"a"` is not parsed, the payload is
`[1, 0]`, and the buffer length is 2. -/
theorem C7_complete_slices_only_witness :
    ConvertIssueMessage2Device .uint16 (catalogOf "p" ⟨"p", "holding registry", 1⟩) "d" "m" "p"
        (some [("p", [48, 49, 97])]) = .ok ⟨some [[1, 0]], none, "", "", none⟩
    ∧ bufferLen .uint16 "holding registry" 1 = 2 * 1 :=
  ⟨by decide,
   (C7_complete_slices_only .uint16 (catalogOf "p" ⟨"p", "holding registry", 1⟩) "d" "m" "p"
     "p" "holding registry" "p" 1 [48, 49, 97] [] (by decide) (by decide)).2.1 (by decide)⟩

/-- C8: the descriptor is looked up under `featureId`, not under the key of the
value. With the catalog holding a holding-registry descriptor of count 1 under
the parameter id `"p"` and the value mapping `{"p": "01"}`, a call with
`featureId = "f"` returns the "No any messages." error, while the same call
with `featureId = "p"` returns the payload `[1, 0]`, whatever the integer type
of the count. -/
theorem C8_lookup_uses_featureId (T : GoIntType) :
    ConvertIssueMessage2Device T (catalogOf "p" ⟨"p", "holding registry", 1⟩) "d" "m" "f"
        (some [("p", [48, 49])]) = .ok ⟨none, none, "", "", some (.errorf "No any messages.")⟩
    ∧ ConvertIssueMessage2Device T (catalogOf "p" ⟨"p", "holding registry", 1⟩) "d" "m" "p"
        (some [("p", [48, 49])]) = .ok ⟨some [[1, 0]], none, "", "", none⟩ := by
  cases T <;> decide

/-- C9: once the value covers the whole buffer (`len(s) >= 4n` for a holding
registry of count `n`, `len(s) >= 2n` for a coil), appending any further bytes
`t`, digits or not, leaves the outcome of encoding unchanged. -/
theorem C9_excess_ignored (T : GoIntType) (c : Converter)
    (deviceId modelId featureId pid ty key : String) (n : Nat) (s t : GoString)
    (rest : GoMap GoString)
    (hty : ty = "holding registry" ∨ ty = "coil")
    (hcat : c.InputParamIdMap.lookup featureId = some ⟨pid, ty, n⟩)
    (hlen : (if ty = "holding registry" then 4 * n else 2 * n) ≤ s.length) :
    ConvertIssueMessage2Device T c deviceId modelId featureId (some ((key, s ++ t) :: rest))
      = ConvertIssueMessage2Device T c deviceId modelId featureId (some ((key, s) :: rest)) := by
  by_cases hp : ty = "holding registry" ∧ T.wrap (n * 2) < 0
  · obtain ⟨hp1, hp2⟩ := hp
    subst hp1
    rw [convert_holding_panic T c deviceId modelId featureId pid key n (s ++ t) rest hcat hp2,
      convert_holding_panic T c deviceId modelId featureId pid key n s rest hcat hp2]
  · have h2 : 2 * (0 + bufferLen T ty n) ≤ s.length := by
      have hb := bufferLen_le T ty n
      split_ifs at hlen hb <;> omega
    rw [convert_eq T c deviceId modelId featureId pid ty key n (s ++ t) rest hty hcat hp,
      convert_eq T c deviceId modelId featureId pid ty key n s rest hty hcat hp,
      packLoop_append s t _ 0 _ h2]

/-- C9, at a coil of count 1 with `s = "07"` and the non-digit excess `"zz"`:
both calls return the payload `[7]`. -/
theorem C9_excess_ignored_witness :
    ConvertIssueMessage2Device .uint16 (catalogOf "p" ⟨"p", "coil", 1⟩) "d" "m" "p"
        (some [("p", [48, 55] ++ [122, 122])])
      = ConvertIssueMessage2Device .uint16 (catalogOf "p" ⟨"p", "coil", 1⟩) "d" "m" "p"
        (some [("p", [48, 55])])
    ∧ ConvertIssueMessage2Device .uint16 (catalogOf "p" ⟨"p", "coil", 1⟩) "d" "m" "p"
        (some [("p", [48, 55, 122, 122])]) = .ok ⟨some [[7]], none, "", "", none⟩ :=
  ⟨C9_excess_ignored .uint16 (catalogOf "p" ⟨"p", "coil", 1⟩) "d" "m" "p" "p" "coil" "p" 1
     [48, 55] [122, 122] [] (by decide) (by decide) (by decide),
   by decide⟩

/-- C10: decoding the one-byte message `[b]` gives the same result as decoding
the two-byte message `[b, 0x00]`, and for `b = 0x07` both give the text
`"700"`. -/
theorem C10_one_byte_padding (c : Converter) (b : Nat) (rest : List GoString)
    (featureType : String) :
    ConvertDeviceMessages2MQFormat c (some ([b] :: rest)) featureType
      = ConvertDeviceMessages2MQFormat c (some ([b, 0] :: rest)) featureType
    ∧ ConvertDeviceMessages2MQFormat c (some ([7] :: rest)) featureType
      = .ok ⟨"", some [55, 48, 48], none⟩
    ∧ ConvertDeviceMessages2MQFormat c (some ([7, 0] :: rest)) featureType
      = .ok ⟨"", some [55, 48, 48], none⟩ :=
  ⟨rfl, rfl, rfl⟩

/-- C11: the "No any messages." error, without payload, is returned when the
value mapping is nil, when it is empty, and when the registry type of the
descriptor found under the request identifier is neither "holding registry"
nor "coil" (the zero descriptor of a missing entry included), whatever the
values hold. -/
theorem C11_no_messages_error (T : GoIntType) (c : Converter)
    (deviceId modelId featureId : String) (values : Option (GoMap GoString))
    (h : values = none ∨ values = some []
      ∨ ((mapIndex c.InputParamIdMap zeroParam featureId).RegistryType ≠ "holding registry"
        ∧ (mapIndex c.InputParamIdMap zeroParam featureId).RegistryType ≠ "coil")) :
    ConvertIssueMessage2Device T c deviceId modelId featureId values
      = .ok ⟨none, none, "", "", some (.errorf "No any messages.")⟩ := by
  rcases h with h | h | ⟨h1, h2⟩
  · subst h; rfl
  · subst h; rfl
  · match values with
    | none => rfl
    | some entries => exact rangeValues_other T c featureId h1 h2 entries

/-- C11, at a catalog without descriptor for the identifier `"f"` and the
malformed value `"zz"`, and at a nil mapping with a coil descriptor. -/
theorem C11_no_messages_error_witness :
    ConvertIssueMessage2Device .uint16 (catalogOf "p" ⟨"p", "coil", 1⟩) "d" "m" "f"
        (some [("p", [122, 122])])
      = .ok ⟨none, none, "", "", some (.errorf "No any messages.")⟩
    ∧ ConvertIssueMessage2Device .uint16 (catalogOf "p" ⟨"p", "coil", 1⟩) "d" "m" "p" none
      = .ok ⟨none, none, "", "", some (.errorf "No any messages.")⟩ :=
  ⟨C11_no_messages_error .uint16 (catalogOf "p" ⟨"p", "coil", 1⟩) "d" "m" "f"
      (some [("p", [122, 122])]) (Or.inr (Or.inr (by decide))),
   C11_no_messages_error .uint16 (catalogOf "p" ⟨"p", "coil", 1⟩) "d" "m" "p" none
      (Or.inl rfl)⟩

/-- C14: a successful call returns an input-message list with exactly one
element, a nil output-message list and two empty topics, and a failed call
returns a nil input-message list, a nil output-message list and two empty
topics next to its error. Every call ends in one of these two ways, unless
`make` panics on a negative doubled count. -/
theorem C14_result_shape (T : GoIntType) (c : Converter)
    (deviceId modelId featureId : String) (values : Option (GoMap GoString)) :
    (∃ B, ConvertIssueMessage2Device T c deviceId modelId featureId values
        = .ok ⟨some [B], none, "", "", none⟩)
    ∨ (∃ err, ConvertIssueMessage2Device T c deviceId modelId featureId values
        = .ok ⟨none, none, "", "", some err⟩)
    ∨ ConvertIssueMessage2Device T c deviceId modelId featureId values
        = .error .makesliceLenOutOfRange := by
  rcases convert_outcome T c deviceId modelId featureId values with
    h | ⟨_, _, _, _, _, _, _, _, h⟩ | ⟨_, _, _, _, _, _, _, h⟩ | ⟨h, _⟩
  · exact Or.inr (Or.inl ⟨_, h⟩)
  · exact Or.inl ⟨_, h⟩
  · exact Or.inr (Or.inl ⟨_, h⟩)
  · exact Or.inr (Or.inr h)

/-- C15 as stated fails when the integer type of `RegistryNum` is signed: with
a 32-bit signed count of 2^30 for a holding registry the product
`RegistryNum*2` is negative and `make` panics, for the empty value as for any
other. -/
theorem C15_make_panics_counterexample :
    ConvertIssueMessage2Device .int32 (catalogOf "p" ⟨"p", "holding registry", 1073741824⟩)
        "d" "m" "p" (some [("p", [])]) = .error .makesliceLenOutOfRange
    ∧ ConvertIssueMessage2Device .int32 (catalogOf "p" ⟨"p", "holding registry", 1073741824⟩)
        "d" "m" "p" (some [("p", [48, 49])]) = .error .makesliceLenOutOfRange
    ∧ (1073741824 : Nat) ≤ GoIntType.int32.maxVal := by
  decide

/-- C15 amended: every slice taken lies within the bounds of the value and
every write lies within the buffer, so the loop never panics, for every value
and every buffer length. A call returns a payload or an error, or else `make`
panics; `make` panics only for a holding registry whose doubled count is
negative in a signed integer type of `RegistryNum`, so with an unsigned type
every call returns. -/
theorem C15_no_panic (T : GoIntType) (c : Converter) (deviceId modelId featureId : String)
    (values : Option (GoMap GoString)) (value : GoString) (N : Nat) :
    ((∃ r, ConvertIssueMessage2Device T c deviceId modelId featureId values = .ok r
          ∧ (r.inputMessages ≠ none ∨ r.err ≠ none))
      ∨ (ConvertIssueMessage2Device T c deviceId modelId featureId values
            = .error .makesliceLenOutOfRange
          ∧ T.signed = true
          ∧ (mapIndex c.InputParamIdMap zeroParam featureId).RegistryType = "holding registry"
          ∧ T.wrap ((mapIndex c.InputParamIdMap zeroParam featureId).RegistryNum * 2) < 0))
    ∧ (T.signed = false →
        ∃ r, ConvertIssueMessage2Device T c deviceId modelId featureId values = .ok r)
    ∧ ∃ x, packLoop value N 0 (List.replicate N 0) = .ok x := by
  refine ⟨?_, ?_, packLoop_returns value N⟩
  · rcases convert_outcome T c deviceId modelId featureId values with
      h | ⟨_, _, _, _, _, _, _, _, h⟩ | ⟨_, _, _, _, _, _, _, h⟩ | h
    · exact Or.inl ⟨_, h, Or.inr (by simp)⟩
    · exact Or.inl ⟨_, h, Or.inl (by simp)⟩
    · exact Or.inl ⟨_, h, Or.inr (by simp)⟩
    · exact Or.inr h
  · intro hu
    rcases convert_outcome T c deviceId modelId featureId values with
      h | ⟨_, _, _, _, _, _, _, _, h⟩ | ⟨_, _, _, _, _, _, _, h⟩ | ⟨_, hs, _⟩
    · exact ⟨_, h⟩
    · exact ⟨_, h⟩
    · exact ⟨_, h⟩
    · rw [hu] at hs; exact absurd hs (by decide)

/-- C15 amended, at a 16-bit unsigned count of 32768 for a holding registry,
whose double wraps to 0: the call returns (an empty payload), and the loop over
a 3-byte buffer and the value `"0a1"` returns as well. -/
theorem C15_no_panic_witness :
    (∃ r, ConvertIssueMessage2Device .uint16
        (catalogOf "p" ⟨"p", "holding registry", 32768⟩) "d" "m" "p"
        (some [("p", [48, 49])]) = .ok r)
    ∧ ∃ x, packLoop [48, 97, 49] 3 0 (List.replicate 3 0) = .ok x :=
  ⟨(C15_no_panic .uint16 (catalogOf "p" ⟨"p", "holding registry", 32768⟩) "d" "m" "p"
      (some [("p", [48, 49])]) [48, 97, 49] 3).2.1 (by decide),
   (C15_no_panic .uint16 (catalogOf "p" ⟨"p", "holding registry", 32768⟩) "d" "m" "p"
      (some [("p", [48, 49])]) [48, 97, 49] 3).2.2⟩

/-- C17: with a holding-registry or coil descriptor, the result for the
iteration order `v :: rest` is the result for the single value `v`. -/
theorem C17_first_value_decides (T : GoIntType) (c : Converter)
    (deviceId modelId featureId pid ty key : String) (n : Nat) (v : GoString)
    (rest : GoMap GoString)
    (hty : ty = "holding registry" ∨ ty = "coil")
    (hcat : c.InputParamIdMap.lookup featureId = some ⟨pid, ty, n⟩) :
    ConvertIssueMessage2Device T c deviceId modelId featureId (some ((key, v) :: rest))
      = ConvertIssueMessage2Device T c deviceId modelId featureId (some [(key, v)]) := by
  by_cases hp : ty = "holding registry" ∧ T.wrap (n * 2) < 0
  · obtain ⟨hp1, hp2⟩ := hp
    subst hp1
    rw [convert_holding_panic T c deviceId modelId featureId pid key n v rest hcat hp2,
      convert_holding_panic T c deviceId modelId featureId pid key n v [] hcat hp2]
  · rw [convert_eq T c deviceId modelId featureId pid ty key n v rest hty hcat hp,
      convert_eq T c deviceId modelId featureId pid ty key n v [] hty hcat hp]

/-- C17, at a malformed first value `"zz"` followed by the well-formed value
`"01"`: the parse error of the first value is the result. -/
theorem C17_first_value_decides_witness :
    ConvertIssueMessage2Device .uint16 (catalogOf "p" ⟨"p", "coil", 1⟩) "d" "m" "p"
        (some [("a", [122, 122]), ("b", [48, 49])])
      = ConvertIssueMessage2Device .uint16 (catalogOf "p" ⟨"p", "coil", 1⟩) "d" "m" "p"
        (some [("a", [122, 122])])
    ∧ ConvertIssueMessage2Device .uint16 (catalogOf "p" ⟨"p", "coil", 1⟩) "d" "m" "p"
        (some [("a", [122, 122]), ("b", [48, 49])])
      = .ok ⟨none, none, "", "", some (.numError "ParseUint" [122, 122] .ErrSyntax)⟩ :=
  ⟨C17_first_value_decides .uint16 (catalogOf "p" ⟨"p", "coil", 1⟩) "d" "m" "p" "p" "coil"
     "a" 1 [122, 122] [("b", [48, 49])] (by decide) (by decide),
   by decide⟩

/-- C20: every byte of every payload that encoding returns is at most 99; and
a 2-character slice that parses has a value of at most 99, which the
conversion to `uint8` leaves unchanged, and never fails with the range error. -/
theorem C20_bytes_at_most_99 (T : GoIntType) (c : Converter)
    (deviceId modelId featureId : String)
    (values : Option (GoMap GoString)) (msgs : List GoString)
    (out : Option (List GoString)) (t1 t2 : String) (err : Option GoError) (a b : Nat)
    (h : ConvertIssueMessage2Device T c deviceId modelId featureId values
      = .ok ⟨some msgs, out, t1, t2, err⟩) :
    (∀ B ∈ msgs, ∀ x ∈ B, x ≤ 99)
    ∧ (∀ v, ParseUint [a, b] 10 16 = .ok v → v ≤ 99 ∧ v % 256 = v)
    ∧ ∀ num, ParseUint [a, b] 10 16 ≠ .error (.numError "ParseUint" num .ErrRange) := by
  refine ⟨?_, ?_, ?_⟩
  · rcases convert_outcome T c deviceId modelId featureId values with
      g | ⟨_, s, _, ty, n, _, _, hall, g⟩ | ⟨_, _, _, _, _, _, _, g⟩ | ⟨g, _⟩
    · rw [g] at h; simp at h
    · rw [g] at h
      simp only [Except.ok.injEq, IssueResult.mk.injEq, Option.some.injEq] at h
      obtain ⟨hm, _⟩ := h
      subst hm
      intro B hB x hx
      rw [List.mem_singleton] at hB
      subst hB
      exact packed_le s _ hall x hx
    · rw [g] at h; simp at h
    · rw [g] at h; simp at h
  · intro v hv
    by_cases hd : isDigit a ∧ isDigit b
    · rw [ParseUint_two_digits hd.1 hd.2] at hv
      have h1 := hd.1
      have h2 := hd.2
      unfold isDigit at h1 h2
      simp only [Except.ok.injEq] at hv
      omega
    · rw [ParseUint_two_bad hd] at hv
      simp at hv
  · intro num hv
    by_cases hd : isDigit a ∧ isDigit b
    · rw [ParseUint_two_digits hd.1 hd.2] at hv
      simp at hv
    · rw [ParseUint_two_bad hd] at hv
      simp at hv

/-- C20, at the largest slices: the value `"9999"` with a holding registry of
count 1 gives the payload `[99, 99]`. -/
theorem C20_bytes_at_most_99_witness :
    ConvertIssueMessage2Device .uint16 (catalogOf "p" ⟨"p", "holding registry", 1⟩) "d" "m" "p"
        (some [("p", [57, 57, 57, 57])]) = .ok ⟨some [[99, 99]], none, "", "", none⟩
    ∧ ((∀ B ∈ [([99, 99] : GoString)], ∀ x ∈ B, x ≤ 99)
      ∧ (∀ v, ParseUint [57, 57] 10 16 = .ok v → v ≤ 99 ∧ v % 256 = v)
      ∧ ∀ num, ParseUint [57, 57] 10 16 ≠ .error (.numError "ParseUint" num .ErrRange)) :=
  ⟨by decide,
   C20_bytes_at_most_99 .uint16 (catalogOf "p" ⟨"p", "holding registry", 1⟩) "d" "m" "p"
     (some [("p", [57, 57, 57, 57])]) [[99, 99]] none "" "" none 57 57 (by decide)⟩

theorem hexDigit_facts : ∀ x, x < 16 →
    isHexDigit (digits.getD x 0) ∧ hexDigitValue (digits.getD x 0) = x
      ∧ (digits.getD x 0 = 48 → x = 0) := by
  decide

theorem hexValue_append_singleton (s : GoString) (ch : Nat) :
    hexValue (s ++ [ch]) = hexValue s * 16 + hexDigitValue ch := by
  simp [hexValue, List.foldl_append]

theorem formatLoopPow2_text (k : Nat) : ∀ (slots u : Nat) (a : GoString),
    u < 16 ^ (k + 1) → k < slots →
    ∃ out, formatLoopPow2 16 15 4 slots u a = .ok (out ++ a)
      ∧ 1 ≤ out.length ∧ out.length ≤ k + 1
      ∧ (∀ ch ∈ out, isHexDigit ch)
      ∧ (out.head? = some 48 → out = [48])
      ∧ hexValue out = u := by
  have base : ∀ (slots u : Nat) (a : GoString) (bound : Nat), u < 16 → 1 ≤ bound →
      ∃ out, formatLoopPow2 16 15 4 (slots + 1) u a = .ok (out ++ a)
        ∧ 1 ≤ out.length ∧ out.length ≤ bound
        ∧ (∀ ch ∈ out, isHexDigit ch)
        ∧ (out.head? = some 48 → out = [48])
        ∧ hexValue out = u := by
    intro slots u a bound hu hb
    obtain ⟨f1, f2, _⟩ := hexDigit_facts u hu
    have h16 : ¬ (u ≥ 16) := by omega
    refine ⟨[digits.getD u 0], ?_, by simp, by simpa using hb, ?_, ?_, ?_⟩
    · rw [formatLoopPow2, if_neg h16]; rfl
    · intro ch hch
      rw [List.mem_singleton] at hch
      rw [hch]; exact f1
    · intro hh
      simp only [List.head?_cons, Option.some.injEq] at hh
      rw [hh]
    · show 0 * 16 + hexDigitValue (digits.getD u 0) = u
      rw [f2]; omega
  induction k with
  | zero =>
    intro slots u a hu hs
    obtain ⟨s, rfl⟩ : ∃ s, slots = s + 1 := ⟨slots - 1, by omega⟩
    exact base s u a 1 (by simpa using hu) (le_refl 1)
  | succ k ih =>
    intro slots u a hu hs
    obtain ⟨s, rfl⟩ : ∃ s, slots = s + 1 := ⟨slots - 1, by omega⟩
    by_cases h16 : u ≥ 16
    · have hshift : u >>> 4 = u / 16 := by rw [Nat.shiftRight_eq_div_pow]
      have hand : u &&& 15 = u % 16 := Nat.and_pow_two_sub_one_eq_mod u 4
      have hlt : u / 16 < 16 ^ (k + 1) := by
        rw [Nat.div_lt_iff_lt_mul (by norm_num)]
        calc u < 16 ^ (k + 1 + 1) := hu
          _ = 16 ^ (k + 1) * 16 := by ring
      obtain ⟨f1, f2, _⟩ := hexDigit_facts (u % 16) (Nat.mod_lt u (by norm_num))
      obtain ⟨out, g1, g2, g3, g4, g5, g6⟩ :=
        ih s (u / 16) (digits.getD (u % 16) 0 :: a) hlt (by omega)
      refine ⟨out ++ [digits.getD (u % 16) 0], ?_, ?_, ?_, ?_, ?_, ?_⟩
      · rw [formatLoopPow2, if_pos h16, hshift, hand, g1]
        simp
      · simp
      · simp only [List.length_append, List.length_singleton]; omega
      · intro ch hch
        rw [List.mem_append, List.mem_singleton] at hch
        rcases hch with hch | hch
        · exact g4 ch hch
        · rw [hch]; exact f1
      · intro hh
        have hne : out ≠ [] := by
          intro h0; rw [h0] at g2; simp at g2
        rw [List.head?_append_of_ne_nil _ hne] at hh
        have := g5 hh
        rw [this] at g6
        have h0 : hexValue [48] = 0 := by decide
        omega
      · rw [hexValue_append_singleton, g6, f2]
        omega
    · exact base s u a (k + 1 + 1) (by omega) (by omega)

theorem FormatUint_text {d : Nat} (h : d < 65536) :
    ∃ out, FormatUint d 16 = .ok out
      ∧ 1 ≤ out.length ∧ out.length ≤ 4
      ∧ (∀ ch ∈ out, isHexDigit ch)
      ∧ (out.head? = some 48 → out = [48])
      ∧ hexValue out = d := by
  have h1 : ¬ (16 < 2 ∨ 16 > 36) := by decide
  have h2 : 16 &&& (16 - 1) = 0 := by decide
  have h3 : TrailingZeros 16 = 4 := by decide
  have h4 : d < 2 ^ 64 := by
    calc d < 65536 := h
      _ ≤ 2 ^ 64 := by norm_num
  obtain ⟨out, g1, g⟩ := formatLoopPow2_text 3 65 d [] (by simpa using h) (by norm_num)
  refine ⟨out, ?_, g⟩
  rw [FormatUint, if_neg h1, if_pos h2, h3, Nat.mod_eq_of_lt h4, g1, List.append_nil]

theorem decode_format (c : Converter) (m : GoString) (rest : List GoString)
    (featureType : String) (hm : m ≠ []) (hb : IsByteString m) (out : GoString)
    (hf : FormatUint (256 * m.getD 0 0 + m.getD 1 0) 16 = .ok out) :
    ConvertDeviceMessages2MQFormat c (some (m :: rest)) featureType
      = .ok ⟨"", some out, none⟩ := by
  match m, hm, hb, hf with
  | [b0], _, hb, hf =>
    have h0 : b0 < 256 := hb b0 (by simp)
    have hu : Uint16 ([b0] ++ [0]) = .ok (256 * b0 + 0) := Uint16_bytes [] h0 (by norm_num)
    have hf2 : FormatUint (256 * b0 + 0) 16 = .ok out := hf
    simp only [ConvertDeviceMessages2MQFormat, List.length_singleton, if_true, hu, hf2,
      gt_iff_lt, Nat.zero_lt_one]
  | b0 :: b1 :: tl, _, hb, hf =>
    have h0 : b0 < 256 := hb b0 (by simp)
    have h1 : b1 < 256 := hb b1 (by simp)
    have hl : ¬ ((b0 :: b1 :: tl).length = 1) := by simp
    have hp : (b0 :: b1 :: tl).length > 0 := by simp
    have hf2 : FormatUint (256 * b0 + b1) 16 = .ok out := hf
    simp only [ConvertDeviceMessages2MQFormat, hl, hp, if_true, if_false,
      Uint16_bytes tl h0 h1, hf2]

theorem word_lt (m : GoString) (hb : IsByteString m) :
    256 * m.getD 0 0 + m.getD 1 0 < 65536 := by
  have h : ∀ j, m.getD j 0 < 256 := by
    intro j
    by_cases hj : j < m.length
    · rw [List.getD_eq_getElem _ _ hj]; exact hb _ (List.getElem_mem _)
    · rw [List.getD_eq_default _ _ (by omega)]; norm_num
  have h0 := h 0
  have h1 := h 1
  omega

theorem decode_text (c : Converter) (m : GoString) (rest : List GoString)
    (featureType : String) (hm : m ≠ []) (hb : IsByteString m) :
    ∃ out, ConvertDeviceMessages2MQFormat c (some (m :: rest)) featureType
        = .ok ⟨"", some out, none⟩
      ∧ 1 ≤ out.length ∧ out.length ≤ 4
      ∧ (∀ ch ∈ out, isHexDigit ch)
      ∧ (out.head? = some 48 → out = [48])
      ∧ hexValue out = 256 * m.getD 0 0 + m.getD 1 0 := by
  obtain ⟨out, g1, g⟩ := FormatUint_text (word_lt m hb)
  exact ⟨out, decode_format c m rest featureType hm hb out g1, g⟩

theorem consumed_eq (m : GoString) (hm : m ≠ []) :
    (if m.length = 1 then m ++ [0] else m.take 2) = [m.getD 0 0, m.getD 1 0] := by
  match m, hm with
  | [b0], _ => rfl
  | b0 :: b1 :: tl, _ =>
    have hl : ¬ ((b0 :: b1 :: tl).length = 1) := by simp
    rw [if_neg hl]; rfl

theorem hexDigitValue_le {ch : Nat} (h : isHexDigit ch) : hexDigitValue ch ≤ 15 ∧ 48 ≤ ch := by
  unfold isHexDigit at h
  unfold hexDigitValue
  split_ifs <;> omega

/-- C12 as stated fails: for the message `[0x01, 0x02]` the only bytes returned
are the text `"102"`; the topic is empty and the consumed bytes `[1, 2]` are
not part of the result. -/
theorem C12_raw_bytes_counterexample :
    ConvertDeviceMessages2MQFormat (catalogOf "p" zeroParam) (some [[1, 2]]) "t"
        = .ok ⟨"", some [49, 48, 50], none⟩
    ∧ ([49, 48, 50] : GoString) ≠ [1, 2] := by
  decide

/-- C12 amended: on success the result is an empty topic, no error, and as its
only byte string the ASCII text of the hexadecimal string (hexadecimal digits
denoting `256*m[0] + m[1]`); this byte string is never the two raw bytes that
were consumed from the first message. -/
theorem C12_payload_is_hex_text (c : Converter) (m : GoString) (rest : List GoString)
    (featureType : String) (hm : m ≠ []) (hb : IsByteString m) :
    ∃ out, ConvertDeviceMessages2MQFormat c (some (m :: rest)) featureType
        = .ok ⟨"", some out, none⟩
      ∧ (∀ ch ∈ out, isHexDigit ch)
      ∧ hexValue out = 256 * m.getD 0 0 + m.getD 1 0
      ∧ out ≠ (if m.length = 1 then m ++ [0] else m.take 2) := by
  obtain ⟨out, g1, _, _, g4, _, g6⟩ := decode_text c m rest featureType hm hb
  refine ⟨out, g1, g4, g6, ?_⟩
  rw [consumed_eq m hm]
  intro heq
  rw [heq] at g4 g6
  have h0 := hexDigitValue_le (g4 (m.getD 0 0) (by simp))
  have h1 := hexDigitValue_le (g4 (m.getD 1 0) (by simp))
  have hv : hexValue [m.getD 0 0, m.getD 1 0]
      = (0 * 16 + hexDigitValue (m.getD 0 0)) * 16 + hexDigitValue (m.getD 1 0) := rfl
  rw [hv] at g6
  omega

/-- C12 amended, at the one-byte message `[0x07]`: the payload is the text
`"700"`, not the consumed bytes `[7, 0]`. -/
theorem C12_payload_is_hex_text_witness :
    ∃ out, ConvertDeviceMessages2MQFormat (catalogOf "p" zeroParam) (some [[7]]) "t"
        = .ok ⟨"", some out, none⟩
      ∧ (∀ ch ∈ out, isHexDigit ch)
      ∧ hexValue out = 256 * ([7] : GoString).getD 0 0 + ([7] : GoString).getD 1 0
      ∧ out ≠ (if ([7] : GoString).length = 1 then [7] ++ [0] else ([7] : GoString).take 2) :=
  C12_payload_is_hex_text (catalogOf "p" zeroParam) [7] [] "t" (by decide) (by decide)

/-- C13: encoding followed by decoding is not the identity. With a holding
registry of count 1 the all-digit value `"0102"` is encoded to the bytes
`[1, 2]`, whatever the integer type of the count, and decoding these bytes
gives the text `"102"`, which differs from `"0102"`. -/
theorem C13_not_inverse (T : GoIntType) :
    (∀ b ∈ ([48, 49, 48, 50] : GoString), isDigit b)
    ∧ ConvertIssueMessage2Device T (catalogOf "p" ⟨"p", "holding registry", 1⟩) "d" "m" "p"
        (some [("p", [48, 49, 48, 50])]) = .ok ⟨some [[1, 2]], none, "", "", none⟩
    ∧ ConvertDeviceMessages2MQFormat (catalogOf "p" ⟨"p", "holding registry", 1⟩)
        (some [[1, 2]]) "t" = .ok ⟨"", some [49, 48, 50], none⟩
    ∧ ([49, 48, 50] : GoString) ≠ [48, 49, 48, 50] := by
  cases T <;> decide

/-- C18: for a first message `m` of at least two bytes, decoding
`(m ++ t) :: rest` gives the result of decoding the single message made of the
first two bytes of `m`, for any converter and any `featureType` on either
side. -/
theorem C18_first_two_bytes_only (c c2 : Converter) (m t : GoString) (rest : List GoString)
    (featureType featureType2 : String) (h : 2 ≤ m.length) :
    ConvertDeviceMessages2MQFormat c (some ((m ++ t) :: rest)) featureType
      = ConvertDeviceMessages2MQFormat c2 (some [m.take 2]) featureType2 := by
  match m, h with
  | b0 :: b1 :: tl, _ =>
    have hl : ¬ ((b0 :: b1 :: tl ++ t).length = 1) := by simp
    have hp : (b0 :: b1 :: tl ++ t).length > 0 := by simp
    have hl2 : ¬ (((b0 :: b1 :: tl).take 2).length = 1) := by simp
    have hp2 : ((b0 :: b1 :: tl).take 2).length > 0 := by simp
    simp only [ConvertDeviceMessages2MQFormat, hl, hp, hl2, hp2, if_true, if_false]
    rfl

/-- C18, at `m = [0x01, 0x02, 0x03]`, `t = [0xff]` and a further message: the
result is that of `[0x01, 0x02]`, the text `"102"`. -/
theorem C18_first_two_bytes_only_witness :
    ConvertDeviceMessages2MQFormat (catalogOf "p" zeroParam)
        (some (([1, 2, 3] ++ [255]) :: [[9, 9]])) "a"
      = ConvertDeviceMessages2MQFormat (catalogOf "q" zeroParam)
        (some [([1, 2, 3] : GoString).take 2]) "b"
    ∧ ConvertDeviceMessages2MQFormat (catalogOf "p" zeroParam)
        (some [[1, 2, 3, 255], [9, 9]]) "a" = .ok ⟨"", some [49, 48, 50], none⟩ :=
  ⟨C18_first_two_bytes_only (catalogOf "p" zeroParam) (catalogOf "q" zeroParam)
     [1, 2, 3] [255] [[9, 9]] "a" "b" (by decide),
   by decide⟩

/-- C19: for a non-empty first message `m` the payload is a text of 1 to 4
characters, each one of `0`-`9`, `a`-`f`, with a leading `0` only when the text
is exactly `"0"`, and read in base 16 it gives back `256*m[0] + m[1]` (`m[1]`
being `0` for a one-byte message); so two messages whose first two bytes
denote different values never decode to the same result. -/
theorem C19_hex_text_roundtrip (c : Converter) (m m2 : GoString) (rest rest2 : List GoString)
    (featureType featureType2 : String)
    (hm : m ≠ []) (hb : IsByteString m) (hm2 : m2 ≠ []) (hb2 : IsByteString m2) :
    (∃ out, ConvertDeviceMessages2MQFormat c (some (m :: rest)) featureType
        = .ok ⟨"", some out, none⟩
      ∧ 1 ≤ out.length ∧ out.length ≤ 4
      ∧ (∀ ch ∈ out, isHexDigit ch)
      ∧ (out.head? = some 48 → out = [48])
      ∧ hexValue out = 256 * m.getD 0 0 + m.getD 1 0)
    ∧ (256 * m.getD 0 0 + m.getD 1 0 ≠ 256 * m2.getD 0 0 + m2.getD 1 0 →
        ConvertDeviceMessages2MQFormat c (some (m :: rest)) featureType
          ≠ ConvertDeviceMessages2MQFormat c (some (m2 :: rest2)) featureType2) := by
  refine ⟨decode_text c m rest featureType hm hb, fun hne heq => ?_⟩
  obtain ⟨out, g1, _, _, _, _, g6⟩ := decode_text c m rest featureType hm hb
  obtain ⟨out2, k1, _, _, _, _, k6⟩ := decode_text c m2 rest2 featureType2 hm2 hb2
  rw [g1, k1] at heq
  simp only [Except.ok.injEq, MQResult.mk.injEq, Option.some.injEq, true_and, and_true] at heq
  rw [heq] at g6
  exact hne (g6.symm.trans k6)

/-- C19, at the messages `[0x00, 0x0a]` (text `"a"`) and `[0x0a]` (text
`"a00"`): the values 10 and 2560 differ and so do the results. -/
theorem C19_hex_text_roundtrip_witness :
    ConvertDeviceMessages2MQFormat (catalogOf "p" zeroParam) (some [[0, 10]]) "t"
        = .ok ⟨"", some [97], none⟩
    ∧ ConvertDeviceMessages2MQFormat (catalogOf "p" zeroParam) (some [[10]]) "t"
        = .ok ⟨"", some [97, 48, 48], none⟩
    ∧ ConvertDeviceMessages2MQFormat (catalogOf "p" zeroParam) (some [[0, 10]]) "t"
        ≠ ConvertDeviceMessages2MQFormat (catalogOf "p" zeroParam) (some [[10]]) "t" :=
  ⟨by decide, by decide,
   (C19_hex_text_roundtrip (catalogOf "p" zeroParam) [0, 10] [10] [] [] "t" "t"
      (by decide) (by decide) (by decide) (by decide)).2 (by decide)⟩

theorem lookup_cons_if {α : Type} (mp : GoMap α) (k : String) (v : α) (id : String) :
    List.lookup id ((k, v) :: mp) = if id = k then some v else mp.lookup id := by
  rw [List.lookup_cons]
  by_cases h : id = k
  · have hb : (id == k) = true := by rw [beq_iff_eq]; exact h
    rw [hb, if_pos h]
  · have hb : (id == k) = false := by rw [beq_eq_false_iff_ne]; exact h
    rw [hb, if_neg h]

theorem lookup_mapSet {α : Type} (mp : GoMap α) (k : String) (v : α) (id : String) :
    (mapSet mp k v).lookup id = if id = k then some v else mp.lookup id := by
  induction mp with
  | nil => rw [mapSet, lookup_cons_if]
  | cons e mp ih =>
    obtain ⟨k2, v2⟩ := e
    by_cases h2 : k2 = k
    · subst h2
      rw [mapSet, if_pos rfl, lookup_cons_if, lookup_cons_if]
      by_cases h : id = k2
      · rw [if_pos h, if_pos h]
      · rw [if_neg h, if_neg h, if_neg h]
    · rw [mapSet, if_neg h2, lookup_cons_if, lookup_cons_if, ih]
      by_cases h : id = k
      · have h3 : ¬ (id = k2) := fun h4 => h2 (h4.symm.trans h)
        rw [if_neg h3, if_pos h, if_pos h]
      · rw [if_neg h, if_neg h]

theorem lastWithId_cons {α : Type} (key : α → String) (x : α) (xs : List α) (id : String) :
    lastWithId key (x :: xs) id
      = (lastWithId key xs id).or (if key x = id then some x else none) := by
  unfold lastWithId
  rw [List.reverse_cons, List.find?_append]
  by_cases h : key x = id
  · simp [h]
  · simp [h]

theorem lookup_setAll {α : Type} (key : α → String) (xs : List α) :
    ∀ (mp : GoMap α) (id : String),
      (setAll key xs mp).lookup id = (lastWithId key xs id).or (mp.lookup id) := by
  induction xs with
  | nil => intro mp id; simp [setAll, lastWithId]
  | cons x xs ih =>
    intro mp id
    rw [setAll, ih, lookup_mapSet, lastWithId_cons]
    by_cases h : id = key x
    · subst h
      cases lastWithId key xs (key x) <;> simp
    · have h2 : ¬ (key x = id) := fun h3 => h h3.symm
      cases lastWithId key xs id <;> simp [h, h2]

theorem setAll_append {α : Type} (key : α → String) (xs ys : List α) :
    ∀ mp : GoMap α, setAll key (xs ++ ys) mp = setAll key ys (setAll key xs mp) := by
  induction xs with
  | nil => intro mp; rfl
  | cons x xs ih =>
    intro mp
    rw [List.cons_append, setAll, setAll, ih]

theorem rangeDevices_eq (ds : List Device) :
    ∀ mp, rangeDevices ds mp = setAll Device.DeviceId ds mp := by
  induction ds with
  | nil => intro mp; rfl
  | cons d ds ih => intro mp; rw [rangeDevices, setAll, ih]

theorem rangeParams_eq (ps : List Param) :
    ∀ mp, rangeParams ps mp = setAll Param.Id ps mp := by
  induction ps with
  | nil => intro mp; rfl
  | cons p ps ih => intro mp; rw [rangeParams, setAll, ih]

theorem rangeFeatures_eq (fs : List Feature) : ∀ st : Converter,
    rangeFeatures fs st
      = ⟨st.ModelIdMap, st.DeviceIdMap, setAll Feature.Id fs st.FeatureIdMap,
          setAll Param.Id (fs.flatMap featureInputs) st.InputParamIdMap,
          setAll Param.Id (fs.flatMap featureOutputs) st.OutputParamIdMap⟩ := by
  induction fs with
  | nil => intro st; rfl
  | cons f fs ih =>
    intro st
    by_cases h : f.Type_ = "command"
    · rw [rangeFeatures, if_pos h, ih]
      simp only [List.flatMap_cons, setAll_append, featureInputs, featureOutputs, if_pos h,
        rangeParams_eq, setAll]
    · rw [rangeFeatures, if_neg h, ih]
      simp only [List.flatMap_cons, setAll_append, featureInputs, featureOutputs, if_neg h,
        setAll]

theorem rangeModels_eq (ms : List Model) : ∀ st : Converter,
    rangeModels ms st
      = ⟨setAll Model.ModelId ms st.ModelIdMap, st.DeviceIdMap,
          setAll Feature.Id (ms.flatMap (fun m => m.Features)) st.FeatureIdMap,
          setAll Param.Id ((ms.flatMap (fun m => m.Features)).flatMap featureInputs)
            st.InputParamIdMap,
          setAll Param.Id ((ms.flatMap (fun m => m.Features)).flatMap featureOutputs)
            st.OutputParamIdMap⟩ := by
  induction ms with
  | nil => intro st; rfl
  | cons m ms ih =>
    intro st
    rw [rangeModels, ih, rangeFeatures_eq]
    simp only [List.flatMap_cons, List.flatMap_append, setAll_append, setAll]

theorem main_eq (config : Protocol) :
    main config
      = ⟨setAll Model.ModelId config.Models [], setAll Device.DeviceId config.Devices [],
          setAll Feature.Id (allFeatures config) [],
          setAll Param.Id (commandInputs config) [],
          setAll Param.Id (commandOutputs config) []⟩ := by
  rw [main, rangeModels_eq, rangeDevices_eq]
  rfl

theorem lastWithId_isSome {α : Type} (key : α → String) (xs : List α) (id : String) :
    (lastWithId key xs id).isSome ↔ ∃ x ∈ xs, key x = id := by
  unfold lastWithId
  rw [List.find?_isSome]
  simp

theorem mem_commandInputs (config : Protocol) (p : Param) :
    p ∈ commandInputs config
      ↔ ∃ m ∈ config.Models, ∃ f ∈ m.Features, f.Type_ = "command" ∧ p ∈ f.InputParams := by
  unfold commandInputs allFeatures featureInputs
  simp only [List.mem_flatMap]
  constructor
  · rintro ⟨f, ⟨m, hm, hf⟩, hp⟩
    by_cases h : f.Type_ = "command"
    · rw [if_pos h] at hp; exact ⟨m, hm, f, hf, h, hp⟩
    · rw [if_neg h] at hp; simp at hp
  · rintro ⟨m, hm, f, hf, h, hp⟩
    exact ⟨f, ⟨m, hm, hf⟩, by rw [if_pos h]; exact hp⟩

theorem mem_commandOutputs (config : Protocol) (p : Param) :
    p ∈ commandOutputs config
      ↔ ∃ m ∈ config.Models, ∃ f ∈ m.Features, f.Type_ = "command" ∧ p ∈ f.OutputParams := by
  unfold commandOutputs allFeatures featureOutputs
  simp only [List.mem_flatMap]
  constructor
  · rintro ⟨f, ⟨m, hm, hf⟩, hp⟩
    by_cases h : f.Type_ = "command"
    · rw [if_pos h] at hp; exact ⟨m, hm, f, hf, h, hp⟩
    · rw [if_neg h] at hp; simp at hp
  · rintro ⟨m, hm, f, hf, h, hp⟩
    exact ⟨f, ⟨m, hm, hf⟩, by rw [if_pos h]; exact hp⟩

/-- C16: in the catalog built by `main`, each of the five maps gives for an
identifier the last entry carrying it in document order (devices, models, all
features, and the input and output parameters of the features of type
"command"); and an identifier is a key of `InputParamIdMap` (of
`OutputParamIdMap`) exactly when it is the id of an input (output) parameter
of some feature of type "command". -/
theorem C16_catalog_last_write_wins (config : Protocol) (id : String) :
    (main config).DeviceIdMap.lookup id = lastWithId Device.DeviceId config.Devices id
    ∧ (main config).ModelIdMap.lookup id = lastWithId Model.ModelId config.Models id
    ∧ (main config).FeatureIdMap.lookup id = lastWithId Feature.Id (allFeatures config) id
    ∧ (main config).InputParamIdMap.lookup id
        = lastWithId Param.Id (commandInputs config) id
    ∧ (main config).OutputParamIdMap.lookup id
        = lastWithId Param.Id (commandOutputs config) id
    ∧ (((main config).InputParamIdMap.lookup id).isSome
        ↔ ∃ m ∈ config.Models, ∃ f ∈ m.Features, f.Type_ = "command"
            ∧ ∃ p ∈ f.InputParams, p.Id = id)
    ∧ (((main config).OutputParamIdMap.lookup id).isSome
        ↔ ∃ m ∈ config.Models, ∃ f ∈ m.Features, f.Type_ = "command"
            ∧ ∃ p ∈ f.OutputParams, p.Id = id) := by
  have hnil : ∀ {α : Type} (o : Option α), o.or (List.lookup id ([] : GoMap α)) = o := by
    intro α o; cases o <;> rfl
  rw [main_eq]
  simp only [lookup_setAll, hnil]
  refine ⟨trivial, trivial, trivial, trivial, trivial, ?_, ?_⟩
  · rw [lastWithId_isSome]
    constructor
    · rintro ⟨p, hp, hid⟩
      obtain ⟨m, hm, f, hf, h, hp2⟩ := (mem_commandInputs config p).1 hp
      exact ⟨m, hm, f, hf, h, p, hp2, hid⟩
    · rintro ⟨m, hm, f, hf, h, p, hp2, hid⟩
      exact ⟨p, (mem_commandInputs config p).2 ⟨m, hm, f, hf, h, hp2⟩, hid⟩
  · rw [lastWithId_isSome]
    constructor
    · rintro ⟨p, hp, hid⟩
      obtain ⟨m, hm, f, hf, h, hp2⟩ := (mem_commandOutputs config p).1 hp
      exact ⟨m, hm, f, hf, h, p, hp2, hid⟩
    · rintro ⟨m, hm, f, hf, h, p, hp2, hid⟩
      exact ⟨p, (mem_commandOutputs config p).2 ⟨m, hm, f, hf, h, hp2⟩, hid⟩

end Humidity
